import Mathlib

/-!
# Verification of the file-mate core engine

A shallow embedding of `src/filemate/core/rename.py` and
`src/filemate/core/change_extension.py` (plus `utils/validators.py`),
together with proofs and refutations of the specification's claims.

Modelling conventions:
* A filesystem is a list of `FPath` (directory + name), read as a set of
  existing paths.  `new_path.exists()` is membership; `Path.rename` /
  `shutil.move` are erase-then-insert.
* A directory scan (`folder.iterdir()`) is a list of `DirEntry` values
  (name plus the `is_file()` / `is_symlink()` flags); the scan outcome is
  an `Except ScanErr _` so that a vanished or unreadable directory can be
  represented.
* Python's `pattern.format(i=idx)` is an abstract `fmt : Nat → Option String`
  parameter (`none` models the `ValueError`/`KeyError` raised by a bad
  format specifier).  Everything else (suffix/stem splitting, filters,
  normalisation, the conflict loop, counters) is translated line by line.
-/

namespace FileMate

/-- A filesystem path: the containing directory and the file name. -/
structure FPath where
  dir : String
  name : String
deriving DecidableEq, Repr

/-- A directory entry as produced by `folder.iterdir()`:
its name and the results of `is_file()` and `is_symlink()`. -/
structure DirEntry where
  name : String
  isFile : Bool
  isSymlink : Bool
deriving DecidableEq, Repr

/-- Errors that `folder.iterdir()` can raise
(`FileNotFoundError`, `PermissionError`). -/
inductive ScanErr where
  | notFound
  | permissionDenied
deriving DecidableEq, Repr

/-- Environment of one invocation: the existing paths, the scan outcome for
the source folder, whether a configured output directory already exists,
whether `mkdir` would succeed, and the answer `click.confirm` would give. -/
structure World where
  fs : List FPath
  scan : Except ScanErr (List DirEntry)
  outputDirExists : Bool
  mkdirOk : Bool
  confirmAnswer : Bool

/-- `s.lower()` (ASCII, matching `Char.toLower`). -/
def lowerS (s : String) : String := ⟨s.data.map Char.toLower⟩

/-- `s.strip()`: drop whitespace from both ends. -/
def trimS (s : String) : String :=
  ⟨((s.data.dropWhile Char.isWhitespace).reverse.dropWhile Char.isWhitespace).reverse⟩

/-- `s.startswith(p)`. -/
def startsWithS (s p : String) : Bool := p.data.isPrefixOf s.data

/-- Lexicographic comparison of character lists by code point — the order
Python's `sorted` uses on path names. -/
def lexLeChars : List Char → List Char → Bool
  | [], _ => true
  | _ :: _, [] => false
  | a :: as, b :: bs =>
    if a.val < b.val then true
    else if b.val < a.val then false
    else lexLeChars as bs

/-- Name order used by `sorted(...)` in both modules. -/
def nameLe (a b : DirEntry) : Bool := lexLeChars a.name.data b.name.data

/-- Index of the last `'.'` in a name, if any (Python `str.rfind('.')`). -/
def pyDotIdx (name : String) : Option Nat :=
  match name.data.reverse.findIdx? (· == '.') with
  | none => none
  | some j => some (name.data.length - 1 - j)

/-- `pathlib.PurePath.suffix`: the part of the name from the last dot on,
provided that dot is neither the first nor the last character. -/
def pySuffix (name : String) : String :=
  match pyDotIdx name with
  | none => ""
  | some i => if 0 < i ∧ i < name.data.length - 1 then ⟨name.data.drop i⟩ else ""

/-- `pathlib.PurePath.stem`: the name up to (not including) the suffix. -/
def pyStem (name : String) : String :=
  match pyDotIdx name with
  | none => name
  | some i => if 0 < i ∧ i < name.data.length - 1 then ⟨name.data.take i⟩ else name

/-- Normalisation applied to an extension-filter list in both modules:
keep entries that are non-empty after `strip()`, lowercase-and-strip them,
and prepend a dot when missing. -/
def normalizeExts (l : List String) : List String :=
  (l.filter (fun e => trimS e ≠ "")).map (fun e =>
    let x := trimS (lowerS e)
    if startsWithS x "." then x else "." ++ x)

/-- The extension test of `rename_files` (rename.py lines 100-116): no
filter when `config.extensions` is falsy; with a filter the suffix must be
a member, except that an all-whitespace filter set is falsy again and
filters nothing. -/
def renameExtPred (extensions : Option (List String)) (suffix : String) : Bool :=
  match extensions with
  | none => true
  | some l =>
    if l = [] then true
    else
      let s := normalizeExts l
      if s = [] then true else s.contains (lowerS suffix)

/-- The `from_extensions` test of `change_extensions` (change_extension.py
lines 106-121, 156): same normalisation, empty set reset to no-filter; the
argument is the already-lowercased suffix. -/
def ceExtPred (fromExtensions : Option (List String)) (suffixLower : String) : Bool :=
  match fromExtensions with
  | none => true
  | some l =>
    if l = [] then true
    else
      let s := normalizeExts l
      if s = [] then true else s.contains suffixLower

/-- The `source_prefix` test of `rename_files` (line 115): an unset or
empty (falsy) filter accepts everything. -/
def namePrefixPred (pf : Option String) (name : String) : Bool :=
  match pf with
  | none => true
  | some p => if p = "" then true else startsWithS name p

/-- `files_to_consider` of `rename_files` (lines 110-116): filter by
file-or-symlink, extension and name-prefix, then `sorted(...)` by name. -/
def renameConsider (listing : List DirEntry) (extensions : Option (List String))
    (pf : Option String) : List DirEntry :=
  List.insertionSort (fun a b => nameLe a b = true)
    (listing.filter (fun f =>
      (f.isFile || f.isSymlink)
      && renameExtPred extensions (pySuffix f.name)
      && namePrefixPred pf f.name))

/-- `files_to_consider` of `change_extensions` (lines 133-135): all regular
files and symlinks, sorted by name. -/
def ceConsider (listing : List DirEntry) : List DirEntry :=
  List.insertionSort (fun a b => nameLe a b = true)
    (listing.filter (fun f => f.isFile || f.isSymlink))

/-- The classification loop of `change_extensions` (lines 138-157):
returns `files_to_process`, the symlink-skip count and the
already-has-target-extension count.  Order of checks matches the source:
symlink first, then the already-done check, then the source filter. -/
def ceClassify (newExtension : String) (fromExtensions : Option (List String)) :
    List DirEntry → List DirEntry × Nat × Nat
  | [] => ([], 0, 0)
  | f :: rest =>
    let r := ceClassify newExtension fromExtensions rest
    if f.isSymlink then (r.1, r.2.1 + 1, r.2.2)
    else if lowerS (pySuffix f.name) = lowerS newExtension then (r.1, r.2.1, r.2.2 + 1)
    else if ceExtPred fromExtensions (lowerS (pySuffix f.name)) then
      (f :: r.1, r.2.1, r.2.2)
    else (r.1, r.2.1, r.2.2)

/-- Add a path to the filesystem if absent (the target of a successful
`rename`/`move`; inserting an existing path models an overwrite). -/
def insertPath (p : FPath) (fs : List FPath) : List FPath :=
  if p ∈ fs then fs else p :: fs

/-! ## The rename session (`core/rename.py`) -/

/-- Configuration for renaming files (class `RenameConfig`); `fmt` embeds
`config.pattern.format(i=·)`, `pf` embeds `source_prefix`. -/
structure RenameConfig where
  folder : String
  fmt : Nat → Option String
  extensions : Option (List String) := none
  pf : Option String := none
  start : Nat := 1
  outputDir : Option String := none

/-- Per-file events recorded by the rename loop, mirroring its console
output and counter updates.  `renamed` stores the index consumed and
whether the target was absent from the filesystem at mutation time. -/
inductive REvent where
  | fmtError (src : FPath)
  | fmtErrorLoop (src : FPath)
  | conflictSkip (src tgt : FPath)
  | previewed (src tgt : FPath) (idx : Nat)
  | renamed (src tgt : FPath) (idx : Nat) (fresh : Bool)
  | raceSkip (src tgt : FPath)
  | moveError (src tgt : FPath)
deriving DecidableEq, Repr

/-- Mutable state of one `rename_files` session: the filesystem, the index
cursor `current_file_index`, all counters, and the event trace. -/
structure RState where
  fs : List FPath
  cursor : Nat
  renamedCount : Nat
  previewedCount : Nat
  skippedConflicts : Nat
  skippedErrors : Nat
  symlinksSkipped : Nat
  trace : List REvent
deriving DecidableEq, Repr

/-- The conflict-resolution `while` loop of `rename_files` (lines 213-241).
Arguments `rem`/`resolved`/`cur` are the remaining attempts
(`MAX_RENAME_ATTEMPTS - attempt`), `resolved_index`, and the current
candidate path.  Returns `new_path` (`none` after a format error inside
the loop), the final `resolved_index`, and the final `attempt` counter. -/
def conflictLoop (fs : List FPath) (targetDir : String) (selfP : FPath)
    (suffix : String) (fmt : Nat → Option String) (force : Bool) :
    Nat → Nat → FPath → Option FPath × Nat × Nat
  | rem, resolved, cur =>
    if cur ∈ fs ∧ cur ≠ selfP then
      if force then (some cur, resolved, 10 - rem)
      else
        match rem with
        | 0 => (some cur, resolved, 10)
        | r + 1 =>
          match fmt (resolved + 1) with
          | none => (none, resolved + 1, 10 - r)
          | some base =>
            conflictLoop fs targetDir selfP suffix fmt force r (resolved + 1)
              ⟨targetDir, base ++ suffix⟩
    else (some cur, resolved, 10 - rem)

/-- The decision taken for one file by the body of the processing loop
(rename.py lines 189-305), separated from its state effects. -/
inductive RAction where
  | fmtErr
  | fmtErrLoop
  | conflictSkip (tgt : FPath)
  | preview (tgt : FPath) (idx : Nat)
  | doRename (tgt : FPath) (idx : Nat) (viaMove : Bool)
  | raceSkip (tgt : FPath)
  | moveErr (tgt : FPath)
deriving DecidableEq, Repr

/-- Decide what the loop body does for one file: initial pattern
formatting, the conflict loop, the post-loop conflict check, the dry-run
branch, and the `shutil.move` / pre-checked `Path.rename` split. -/
def decideAction (folder : String) (fmt : Nat → Option String)
    (outDirSome : Bool) (targetDir : String) (targetDirOk dryRun force : Bool)
    (fs : List FPath) (cursor : Nat) (f : DirEntry) : RAction :=
  let src : FPath := ⟨folder, f.name⟩
  let suffix := pySuffix f.name
  match fmt cursor with
  | none => .fmtErr
  | some base =>
    match conflictLoop fs targetDir src suffix fmt force 10 cursor
        ⟨targetDir, base ++ suffix⟩ with
    | (none, _, _) => .fmtErrLoop
    | (some tgt, resolved, _) =>
      if tgt ∈ fs ∧ force = false ∧ tgt ≠ src then .conflictSkip tgt
      else if dryRun then .preview tgt resolved
      else if outDirSome ∨ (force = true ∧ tgt ∈ fs) then
        if targetDirOk then .doRename tgt resolved true else .moveErr tgt
      else if force = false ∧ tgt ∈ fs then .raceSkip tgt
      else .doRename tgt resolved false

/-- Apply one decision to the session state: counter updates, cursor
moves, the filesystem mutation, and the trace entry.  Cursor behaviour is
exactly the source's: `+1` on every skip except a format failure inside
the conflict loop (line 245 has no increment); `resolved + 1` on success
or dry-run preview. -/
def applyAction (folder : String) (s : RState) (f : DirEntry) :
    RAction → RState
  | .fmtErr =>
    { s with skippedErrors := s.skippedErrors + 1, cursor := s.cursor + 1,
             trace := s.trace ++ [.fmtError ⟨folder, f.name⟩] }
  | .fmtErrLoop =>
    { s with skippedErrors := s.skippedErrors + 1,
             trace := s.trace ++ [.fmtErrorLoop ⟨folder, f.name⟩] }
  | .conflictSkip tgt =>
    { s with skippedConflicts := s.skippedConflicts + 1, cursor := s.cursor + 1,
             trace := s.trace ++ [.conflictSkip ⟨folder, f.name⟩ tgt] }
  | .preview tgt idx =>
    { s with previewedCount := s.previewedCount + 1, cursor := idx + 1,
             trace := s.trace ++ [.previewed ⟨folder, f.name⟩ tgt idx] }
  | .doRename tgt idx _ =>
    { s with fs := insertPath tgt (s.fs.erase ⟨folder, f.name⟩),
             renamedCount := s.renamedCount + 1, cursor := idx + 1,
             trace := s.trace ++
               [.renamed ⟨folder, f.name⟩ tgt idx (decide (tgt ∉ s.fs))] }
  | .raceSkip tgt =>
    { s with skippedConflicts := s.skippedConflicts + 1, cursor := s.cursor + 1,
             trace := s.trace ++ [.raceSkip ⟨folder, f.name⟩ tgt] }
  | .moveErr tgt =>
    { s with skippedErrors := s.skippedErrors + 1, cursor := s.cursor + 1,
             trace := s.trace ++ [.moveError ⟨folder, f.name⟩ tgt] }

/-- One iteration of the per-file loop of `rename_files`. -/
def processOne (folder : String) (fmt : Nat → Option String)
    (outDirSome : Bool) (targetDir : String) (targetDirOk dryRun force : Bool)
    (s : RState) (f : DirEntry) : RState :=
  applyAction folder s f
    (decideAction folder fmt outDirSome targetDir targetDirOk dryRun force
      s.fs s.cursor f)

/-- The whole per-file loop, in selection order. -/
def processFold (folder : String) (fmt : Nat → Option String)
    (outDirSome : Bool) (targetDir : String) (targetDirOk dryRun force : Bool) :
    RState → List DirEntry → RState
  | s, [] => s
  | s, f :: rest =>
    processFold folder fmt outDirSome targetDir targetDirOk dryRun force
      (processOne folder fmt outDirSome targetDir targetDirOk dryRun force s f)
      rest

/-- Initial session state. -/
def rInit (fs : List FPath) (start symCount : Nat) : RState :=
  { fs := fs, cursor := start, renamedCount := 0, previewedCount := 0,
    skippedConflicts := 0, skippedErrors := 0, symlinksSkipped := symCount,
    trace := [] }

/-- `files_to_process` of `rename_files` (lines 127-135): the considered
entries with symlinks removed. -/
def renameSelection (cfg : RenameConfig) (listing : List DirEntry) :
    List DirEntry :=
  (renameConsider listing cfg.extensions cfg.pf).filter (fun f => !f.isSymlink)

/-- `symlinks_skipped` of `rename_files`: symlinks among the considered
(already filter-matching) entries. -/
def renameSymCount (cfg : RenameConfig) (listing : List DirEntry) : Nat :=
  (renameConsider listing cfg.extensions cfg.pf).countP (·.isSymlink)

/-- The target directory (`output_dir or folder`). -/
def rTargetDir (cfg : RenameConfig) : String := cfg.outputDir.getD cfg.folder

/-- Whether the target directory exists when processing starts: always for
in-place runs; for an output directory, it must pre-exist or its creation
must succeed. -/
def rTargetOk (cfg : RenameConfig) (w : World) : Bool :=
  match cfg.outputDir with
  | none => true
  | some _ => w.outputDirExists || w.mkdirOk

/-- `rename_files(config, dry_run, yes, force)`.  Returns the function's
return value paired with the final session state; the `Except` layer
records whether an exception escapes to the caller (none ever does here:
scan errors are caught and turn into a `return 0`, lines 118-125). -/
def renameFiles (cfg : RenameConfig) (w : World)
    (dryRun yes force : Bool) : Except ScanErr (Nat × RState) :=
  match w.scan with
  | .error _ => .ok (0, rInit w.fs cfg.start 0)
  | .ok listing =>
    let procList := renameSelection cfg listing
    let s0 := rInit w.fs cfg.start (renameSymCount cfg listing)
    if procList.isEmpty then .ok (0, s0)
    else if !dryRun && !yes && !w.confirmAnswer then .ok (0, s0)
    else
      let s1 := processFold cfg.folder cfg.fmt cfg.outputDir.isSome
        (rTargetDir cfg) (rTargetOk cfg w) dryRun force s0 procList
      .ok ((if dryRun then s1.previewedCount else s1.renamedCount), s1)

/-! ## The extension-change session (`core/change_extension.py`) -/

/-- Configuration for changing extensions (class `ChangeExtConfig`). -/
structure ChangeExtConfig where
  folder : String
  newExtension : String
  fromExtensions : Option (List String) := none
  outputDir : Option String := none
deriving Repr

/-- Per-file events of the extension-change loop. -/
inductive CEvent where
  | conflictSkip (src tgt : FPath)
  | previewed (src tgt : FPath)
  | changed (src tgt : FPath) (fresh : Bool)
  | moveError (src tgt : FPath)
deriving DecidableEq, Repr

/-- Mutable state of one `change_extensions` session. -/
structure CState where
  fs : List FPath
  processedCount : Nat
  skippedConflicts : Nat
  skippedErrors : Nat
  symlinksSkipped : Nat
  alreadyDone : Nat
  trace : List CEvent
deriving DecidableEq, Repr

/-- The decision of the `change_extensions` loop body (lines 204-254):
conflict check, dry-run branch, and the `shutil.move` / `Path.rename`
split. -/
inductive CAction where
  | conflictSkip (tgt : FPath)
  | preview (tgt : FPath)
  | doChange (tgt : FPath) (viaMove : Bool)
  | moveErr (tgt : FPath)
deriving DecidableEq, Repr

/-- Decide what the loop body does for one file.  The target name is
always `stem + new_extension` (no index, no search). -/
def ceDecide (folder newExtension : String) (outDirSome : Bool)
    (targetDir : String) (targetDirOk dryRun force : Bool)
    (fs : List FPath) (f : DirEntry) : CAction :=
  let src : FPath := ⟨folder, f.name⟩
  let tgt : FPath := ⟨targetDir, pyStem f.name ++ newExtension⟩
  if tgt ∈ fs ∧ tgt ≠ src ∧ force = false then .conflictSkip tgt
  else if dryRun then .preview tgt
  else if outDirSome ∨ (force = true ∧ tgt ∈ fs) then
    if targetDirOk then .doChange tgt true else .moveErr tgt
  else .doChange tgt false

/-- Apply one decision to the session state. -/
def ceApply (folder : String) (s : CState) (f : DirEntry) :
    CAction → CState
  | .conflictSkip tgt =>
    { s with skippedConflicts := s.skippedConflicts + 1,
             trace := s.trace ++ [.conflictSkip ⟨folder, f.name⟩ tgt] }
  | .preview tgt =>
    { s with processedCount := s.processedCount + 1,
             trace := s.trace ++ [.previewed ⟨folder, f.name⟩ tgt] }
  | .doChange tgt _ =>
    { s with fs := insertPath tgt (s.fs.erase ⟨folder, f.name⟩),
             processedCount := s.processedCount + 1,
             trace := s.trace ++
               [.changed ⟨folder, f.name⟩ tgt (decide (tgt ∉ s.fs))] }
  | .moveErr tgt =>
    { s with skippedErrors := s.skippedErrors + 1,
             trace := s.trace ++ [.moveError ⟨folder, f.name⟩ tgt] }

/-- One iteration of the per-file loop of `change_extensions`. -/
def ceProcessOne (folder newExtension : String) (outDirSome : Bool)
    (targetDir : String) (targetDirOk dryRun force : Bool)
    (s : CState) (f : DirEntry) : CState :=
  ceApply folder s f
    (ceDecide folder newExtension outDirSome targetDir targetDirOk dryRun force
      s.fs f)

/-- The whole per-file loop, in selection order. -/
def ceFold (folder newExtension : String) (outDirSome : Bool)
    (targetDir : String) (targetDirOk dryRun force : Bool) :
    CState → List DirEntry → CState
  | s, [] => s
  | s, f :: rest =>
    ceFold folder newExtension outDirSome targetDir targetDirOk dryRun force
      (ceProcessOne folder newExtension outDirSome targetDir targetDirOk dryRun
        force s f) rest

/-- Initial session state. -/
def ceInit (fs : List FPath) (symCount alreadyCount : Nat) : CState :=
  { fs := fs, processedCount := 0, skippedConflicts := 0, skippedErrors := 0,
    symlinksSkipped := symCount, alreadyDone := alreadyCount, trace := [] }

/-- `files_to_process` of `change_extensions`. -/
def ceSelection (cfg : ChangeExtConfig) (listing : List DirEntry) :
    List DirEntry :=
  (ceClassify cfg.newExtension cfg.fromExtensions (ceConsider listing)).1

/-- `symlinks_skipped` of `change_extensions`. -/
def ceSymCount (cfg : ChangeExtConfig) (listing : List DirEntry) : Nat :=
  (ceClassify cfg.newExtension cfg.fromExtensions (ceConsider listing)).2.1

/-- `already_done_skipped` of `change_extensions`. -/
def ceAlreadyCount (cfg : ChangeExtConfig) (listing : List DirEntry) : Nat :=
  (ceClassify cfg.newExtension cfg.fromExtensions (ceConsider listing)).2.2

/-- Whether the output-directory creation attempt of `change_extensions`
fails (lines 95-104): only when an output directory is configured, does
not exist, and `mkdir` fails. -/
def ceMkdirFailed (cfg : ChangeExtConfig) (w : World) : Bool :=
  match cfg.outputDir with
  | none => false
  | some _ => !w.outputDirExists && !w.mkdirOk

/-- `change_extensions(config, dry_run, yes, force)`.  Unlike
`rename_files`, a failed output-directory creation returns 0 immediately
(line 104), and the directory scan is not wrapped in a `try`, so scan
errors propagate to the caller (modelled by `.error`). -/
def changeExtensions (cfg : ChangeExtConfig) (w : World)
    (dryRun yes force : Bool) : Except ScanErr (Nat × CState) :=
  if ceMkdirFailed cfg w then .ok (0, ceInit w.fs 0 0)
  else
    match w.scan with
    | .error e => .error e
    | .ok listing =>
      let procList := ceSelection cfg listing
      let s0 := ceInit w.fs (ceSymCount cfg listing) (ceAlreadyCount cfg listing)
      if procList.isEmpty then .ok (0, s0)
      else if !dryRun && !yes && !w.confirmAnswer then .ok (0, s0)
      else
        let s1 := ceFold cfg.folder cfg.newExtension cfg.outputDir.isSome
          (cfg.outputDir.getD cfg.folder) true dryRun force s0 procList
        .ok (s1.processedCount, s1)

/-! ## Configuration validation
(`utils/validators.py` and the pydantic validators) -/

/-- `ensure_directory` (validators.py lines 4-16): the folder must exist
and be a directory. -/
def ensure_directory (folderExists folderIsDir : Bool) (folder : String) :
    Except String String :=
  if folderExists && folderIsDir then .ok folder
  else .error (folder ++ " is not a valid directory.")

/-- `ChangeExtConfig.validate_and_normalize_new_extension`
(change_extension.py lines 44-53): strip, reject empty, prepend a dot. -/
def validate_and_normalize_new_extension (value : String) :
    Except String String :=
  let v := trimS value
  if v = "" then .error "New extension cannot be empty."
  else .ok (if startsWithS v "." then v else "." ++ v)

/-- Construction of a `RenameConfig`, running every pydantic validator of
the class: `ensure_directory` on `folder` and `validate_start` on `start`.
The pattern is passed through unvalidated — the class has no validator
for it. -/
def mkRenameConfig (folderExists folderIsDir : Bool) (folder : String)
    (fmt : Nat → Option String) (extensions : Option (List String))
    (pf : Option String) (start : Int) (outputDir : Option String) :
    Except String RenameConfig :=
  match ensure_directory folderExists folderIsDir folder with
  | .error e => .error e
  | .ok fl =>
    if start < 1 then .error "Start index must be greater than or equal to 1."
    else .ok { folder := fl, fmt := fmt, extensions := extensions, pf := pf,
               start := start.toNat, outputDir := outputDir }

/-- Construction of a `ChangeExtConfig`, running its validators:
`ensure_directory` on `folder` and the new-extension validator. -/
def mkChangeExtConfig (folderExists folderIsDir : Bool) (folder : String)
    (newExtension : String) (fromExtensions : Option (List String))
    (outputDir : Option String) : Except String ChangeExtConfig :=
  match ensure_directory folderExists folderIsDir folder with
  | .error e => .error e
  | .ok fl =>
    match validate_and_normalize_new_extension newExtension with
    | .error e => .error e
    | .ok ne =>
      .ok { folder := fl, newExtension := ne,
            fromExtensions := fromExtensions, outputDir := outputDir }

/-! ## Projections used in theorem statements -/

/-- The value a session returned to its caller, `none` if it raised. -/
def retOf {σ : Type} : Except ScanErr (Nat × σ) → Option Nat
  | .ok (n, _) => some n
  | .error _ => none

/-- The final session state, `none` if the session raised. -/
def stateOf {σ : Type} : Except ScanErr (Nat × σ) → Option σ
  | .ok (_, s) => some s
  | .error _ => none

/-- The exception that escaped to the caller, if any. -/
def raisedOf {σ : Type} : Except ScanErr (Nat × σ) → Option ScanErr
  | .ok _ => none
  | .error e => some e

/-- Whether configuration construction succeeded. -/
def cfgOk {α : Type} : Except String α → Bool
  | .ok _ => true
  | .error _ => false

/-! ## Selection lemmas -/

theorem mem_renameSelection_iff {cfg : RenameConfig} {listing : List DirEntry}
    {f : DirEntry} :
    f ∈ renameSelection cfg listing ↔
      f ∈ listing ∧ f.isSymlink = false ∧ f.isFile = true ∧
        renameExtPred cfg.extensions (pySuffix f.name) = true ∧
        namePrefixPred cfg.pf f.name = true := by
  unfold renameSelection renameConsider
  rw [List.mem_filter, (List.perm_insertionSort _ _).mem_iff, List.mem_filter]
  constructor
  · rintro ⟨⟨hmem, hsel⟩, hsym⟩
    simp only [Bool.and_eq_true, Bool.or_eq_true, Bool.not_eq_true'] at hsel hsym
    obtain ⟨⟨hfs, hext⟩, hpf⟩ := hsel
    refine ⟨hmem, hsym, ?_, hext, hpf⟩
    rcases hfs with h | h
    · exact h
    · rw [hsym] at h; exact absurd h (by simp)
  · rintro ⟨hmem, hsym, hfile, hext, hpf⟩
    refine ⟨⟨hmem, ?_⟩, by simp [hsym]⟩
    simp [hfile, hext, hpf]

theorem renameSelection_subset {cfg : RenameConfig} {listing : List DirEntry}
    {f : DirEntry} (h : f ∈ renameSelection cfg listing) : f ∈ listing :=
  (mem_renameSelection_iff.mp h).1

theorem renameSelection_no_symlink {cfg : RenameConfig} {listing : List DirEntry}
    {f : DirEntry} (h : f ∈ renameSelection cfg listing) : f.isSymlink = false :=
  (mem_renameSelection_iff.mp h).2.1

theorem renameSelection_names_nodup {cfg : RenameConfig} {listing : List DirEntry}
    (h : (listing.map DirEntry.name).Nodup) :
    ((renameSelection cfg listing).map DirEntry.name).Nodup := by
  unfold renameSelection renameConsider
  have h1 : ((listing.filter (fun f =>
      (f.isFile || f.isSymlink)
      && renameExtPred cfg.extensions (pySuffix f.name)
      && namePrefixPred cfg.pf f.name)).map DirEntry.name).Nodup :=
    h.sublist ((List.filter_sublist listing).map DirEntry.name)
  have h2 : ((List.insertionSort (fun a b => nameLe a b = true)
      (listing.filter (fun f =>
        (f.isFile || f.isSymlink)
        && renameExtPred cfg.extensions (pySuffix f.name)
        && namePrefixPred cfg.pf f.name))).map DirEntry.name).Nodup :=
    (((List.perm_insertionSort _ _).map DirEntry.name).nodup_iff).mpr h1
  exact h2.sublist ((List.filter_sublist _).map DirEntry.name)

theorem rename_symCount_eq (listing : List DirEntry)
    (extensions : Option (List String)) (pf : Option String) :
    (renameConsider listing extensions pf).countP (·.isSymlink) =
      listing.countP (fun f =>
        f.isSymlink && (renameExtPred extensions (pySuffix f.name)
          && namePrefixPred pf f.name)) := by
  unfold renameConsider
  rw [(List.perm_insertionSort _ _).countP_eq, List.countP_filter]
  refine List.countP_congr (fun f _ => ?_)
  cases hs : f.isSymlink <;> simp [hs]

theorem ceClassify_sym (ne : String) (fe : Option (List String)) :
    ∀ l : List DirEntry, (ceClassify ne fe l).2.1 = l.countP (·.isSymlink)
  | [] => by simp [ceClassify]
  | f :: rest => by
    have ih := ceClassify_sym ne fe rest
    unfold ceClassify
    rcases hs : f.isSymlink
    · by_cases hd : lowerS (pySuffix f.name) = lowerS ne
      · simp [hs, hd, List.countP_cons, ih]
      · by_cases hp : ceExtPred fe (lowerS (pySuffix f.name)) = true <;>
          simp [hs, hd, hp, List.countP_cons, ih]
    · simp [hs, List.countP_cons, ih]

theorem ceClassify_already (ne : String) (fe : Option (List String)) :
    ∀ l : List DirEntry, (ceClassify ne fe l).2.2 =
      l.countP (fun f =>
        !f.isSymlink && decide (lowerS (pySuffix f.name) = lowerS ne))
  | [] => by simp [ceClassify]
  | f :: rest => by
    have ih := ceClassify_already ne fe rest
    unfold ceClassify
    rcases hs : f.isSymlink
    · by_cases hd : lowerS (pySuffix f.name) = lowerS ne
      · simp [hs, hd, List.countP_cons, ih]
      · by_cases hp : ceExtPred fe (lowerS (pySuffix f.name)) = true <;>
          simp [hs, hd, hp, List.countP_cons, ih]
    · simp [hs, List.countP_cons, ih]

theorem ceClassify_mem (ne : String) (fe : Option (List String)) :
    ∀ (l : List DirEntry) (f : DirEntry), f ∈ (ceClassify ne fe l).1 ↔
      f ∈ l ∧ f.isSymlink = false ∧ lowerS (pySuffix f.name) ≠ lowerS ne ∧
        ceExtPred fe (lowerS (pySuffix f.name)) = true
  | [], f => by simp [ceClassify]
  | g :: rest, f => by
    have ih := ceClassify_mem ne fe rest f
    unfold ceClassify
    rcases hs : g.isSymlink
    · by_cases hd : lowerS (pySuffix g.name) = lowerS ne
      · simp only [hs, hd, Bool.false_eq_true, if_false, if_true, ih,
          List.mem_cons]
        constructor
        · rintro ⟨hm, h⟩; exact ⟨Or.inr hm, h⟩
        · rintro ⟨hm | hm, h⟩
          · subst hm; exact absurd hd h.2.1
          · exact ⟨hm, h⟩
      · by_cases hp : ceExtPred fe (lowerS (pySuffix g.name)) = true
        · simp only [hs, hd, hp, Bool.false_eq_true, if_false, if_true,
            List.mem_cons, ih]
          constructor
          · rintro (hm | ⟨hm, h⟩)
            · subst hm; exact ⟨Or.inl rfl, hs, hd, hp⟩
            · exact ⟨Or.inr hm, h⟩
          · rintro ⟨hm | hm, h⟩
            · exact Or.inl hm
            · exact Or.inr ⟨hm, h⟩
        · simp only [hs, hd, hp, Bool.false_eq_true, if_false, ih,
            List.mem_cons]
          constructor
          · rintro ⟨hm, h⟩; exact ⟨Or.inr hm, h⟩
          · rintro ⟨hm | hm, h⟩
            · subst hm; exact absurd h.2.2 hp
            · exact ⟨hm, h⟩
    · simp only [hs, if_true, ih, List.mem_cons]
      constructor
      · rintro ⟨hm, h⟩; exact ⟨Or.inr hm, h⟩
      · rintro ⟨hm | hm, h⟩
        · subst hm; exact absurd h.1 (by simp [hs])
        · exact ⟨hm, h⟩

theorem mem_ceConsider_iff {listing : List DirEntry} {f : DirEntry} :
    f ∈ ceConsider listing ↔ f ∈ listing ∧ (f.isFile || f.isSymlink) = true := by
  unfold ceConsider
  rw [(List.perm_insertionSort _ _).mem_iff, List.mem_filter]

/-! ## Filesystem and conflict-loop lemmas -/

theorem mem_insertPath {p q : FPath} {fs : List FPath} :
    p ∈ insertPath q fs ↔ p = q ∨ p ∈ fs := by
  unfold insertPath
  by_cases h : q ∈ fs
  · rw [if_pos h]
    constructor
    · exact Or.inr
    · rintro (rfl | hp)
      · exact h
      · exact hp
  · rw [if_neg h, List.mem_cons]

theorem conflictLoop_attempt_le (fs : List FPath) (td : String) (sp : FPath)
    (suf : String) (fmt : Nat → Option String) (force : Bool) :
    ∀ rem res cur, (conflictLoop fs td sp suf fmt force rem res cur).2.2 ≤ 10
  | rem, res, cur => by
    unfold conflictLoop
    split
    · split
      · exact Nat.sub_le 10 rem
      · match rem with
        | 0 => exact Nat.le_refl 10
        | r + 1 =>
          cases hf : fmt (res + 1) with
          | none => simp
          | some base =>
            simpa [hf] using
              conflictLoop_attempt_le fs td sp suf fmt force r (res + 1)
                ⟨td, base ++ suf⟩
    · exact Nat.sub_le 10 rem

theorem conflictLoop_resolved_le (fs : List FPath) (td : String) (sp : FPath)
    (suf : String) (fmt : Nat → Option String) (force : Bool) :
    ∀ rem res cur, (conflictLoop fs td sp suf fmt force rem res cur).2.1 ≤ res + rem
  | rem, res, cur => by
    unfold conflictLoop
    split
    · split
      · exact Nat.le_add_right res rem
      · match rem with
        | 0 => exact Nat.le_add_right res 0
        | r + 1 =>
          cases hf : fmt (res + 1) with
          | none => simp
          | some base =>
            have := conflictLoop_resolved_le fs td sp suf fmt force r (res + 1)
              ⟨td, base ++ suf⟩
            simp only [hf]
            omega
    · exact Nat.le_add_right res rem

theorem conflictLoop_resolved_ge (fs : List FPath) (td : String) (sp : FPath)
    (suf : String) (fmt : Nat → Option String) (force : Bool) :
    ∀ rem res cur, res ≤ (conflictLoop fs td sp suf fmt force rem res cur).2.1
  | rem, res, cur => by
    unfold conflictLoop
    split
    · split
      · exact Nat.le_refl res
      · match rem with
        | 0 => exact Nat.le_refl res
        | r + 1 =>
          cases hf : fmt (res + 1) with
          | none => simp
          | some base =>
            have := conflictLoop_resolved_ge fs td sp suf fmt force r (res + 1)
              ⟨td, base ++ suf⟩
            simp only [hf]
            omega
    · exact Nat.le_refl res

/-- If the candidate path at every index from `res` to `res + rem` is an
existing path different from the file itself, the loop uses up all its
attempts and stops, conflict unresolved, at index `res + rem` with the
attempt counter at 10. -/
theorem conflictLoop_exhausted (fs : List FPath) (td : String) (sp : FPath)
    (suf : String) (g : Nat → String) :
    ∀ rem res,
      (∀ k, k ≤ rem → (⟨td, g (res + k) ++ suf⟩ : FPath) ∈ fs ∧
        (⟨td, g (res + k) ++ suf⟩ : FPath) ≠ sp) →
      conflictLoop fs td sp suf (fun i => some (g i)) false rem res
          ⟨td, g res ++ suf⟩ =
        (some ⟨td, g (res + rem) ++ suf⟩, res + rem, 10)
  | 0, res, h => by
    have h0 := h 0 (Nat.le_refl 0)
    unfold conflictLoop
    rw [if_pos (by simpa using h0)]
    simp
  | rem + 1, res, h => by
    have h0 := h 0 (Nat.zero_le _)
    have ih := conflictLoop_exhausted fs td sp suf g rem (res + 1)
      (fun k hk => by
        have := h (k + 1) (by omega)
        constructor
        · have e : res + 1 + k = res + (k + 1) := by omega
          rw [e]; exact this.1
        · have e : res + 1 + k = res + (k + 1) := by omega
          rw [e]; exact this.2)
    unfold conflictLoop
    rw [if_pos (by simpa using h0)]
    simp only [Bool.false_eq_true, if_false]
    rw [ih]
    have e : res + 1 + rem = res + (rem + 1) := by omega
    rw [e]

/-- If the first candidate path is free (or is the file itself), the loop
exits immediately at the starting index with zero attempts used. -/
theorem conflictLoop_immediate (fs : List FPath) (td : String) (sp : FPath)
    (suf : String) (fmt : Nat → Option String) (force : Bool)
    (res : Nat) (cur : FPath) (h : cur ∉ fs ∨ cur = sp) :
    conflictLoop fs td sp suf fmt force 10 res cur = (some cur, res, 0) := by
  unfold conflictLoop
  rw [if_neg (by tauto)]

/-! ## Per-step lemmas about the rename loop body -/

section RenameStep

variable (folder : String) (fmt : Nat → Option String) (ods : Bool)
  (td : String) (tok dry force : Bool)

theorem applyAction_fs (s : RState) (f : DirEntry) : ∀ a : RAction,
    (applyAction folder s f a).fs = s.fs ∨
      ∃ tgt, (applyAction folder s f a).fs =
        insertPath tgt (s.fs.erase ⟨folder, f.name⟩)
  | .fmtErr => Or.inl rfl
  | .fmtErrLoop => Or.inl rfl
  | .conflictSkip _ => Or.inl rfl
  | .preview _ _ => Or.inl rfl
  | .doRename tgt _ _ => Or.inr ⟨tgt, rfl⟩
  | .raceSkip _ => Or.inl rfl
  | .moveErr _ => Or.inl rfl

theorem applyAction_trace (s : RState) (f : DirEntry) : ∀ a : RAction,
    ∃ e, (applyAction folder s f a).trace = s.trace ++ [e]
  | .fmtErr => ⟨_, rfl⟩
  | .fmtErrLoop => ⟨_, rfl⟩
  | .conflictSkip _ => ⟨_, rfl⟩
  | .preview _ _ => ⟨_, rfl⟩
  | .doRename _ _ _ => ⟨_, rfl⟩
  | .raceSkip _ => ⟨_, rfl⟩
  | .moveErr _ => ⟨_, rfl⟩

theorem processOne_fs_cases (s : RState) (f : DirEntry) :
    (processOne folder fmt ods td tok dry force s f).fs = s.fs ∨
      ∃ tgt, (processOne folder fmt ods td tok dry force s f).fs =
        insertPath tgt (s.fs.erase ⟨folder, f.name⟩) :=
  applyAction_fs folder s f _

theorem processOne_fs_mem {s : RState} {f : DirEntry} {p : FPath}
    (h : p ∈ s.fs) (hne : p ≠ ⟨folder, f.name⟩) :
    p ∈ (processOne folder fmt ods td tok dry force s f).fs := by
  rcases processOne_fs_cases folder fmt ods td tok dry force s f with h1 | ⟨tgt, h1⟩
  · rw [h1]; exact h
  · rw [h1]
    exact mem_insertPath.mpr (Or.inr ((List.mem_erase_of_ne hne).mpr h))

theorem processOne_trace (s : RState) (f : DirEntry) :
    ∃ e, (processOne folder fmt ods td tok dry force s f).trace = s.trace ++ [e] :=
  applyAction_trace folder s f _

theorem processFold_fs_mem :
    ∀ (l : List DirEntry) (s : RState) (p : FPath), p ∈ s.fs →
      (∀ g ∈ l, (⟨folder, g.name⟩ : FPath) ≠ p) →
      p ∈ (processFold folder fmt ods td tok dry force s l).fs
  | [], _, _, h, _ => h
  | f :: rest, s, p, h, hne =>
    processFold_fs_mem rest (processOne folder fmt ods td tok dry force s f) p
      (processOne_fs_mem folder fmt ods td tok dry force h
        (fun e => hne f (List.mem_cons_self f rest) e.symm))
      (fun g hg => hne g (List.mem_cons_of_mem f hg))

theorem processFold_trace_mono :
    ∀ (l : List DirEntry) (s : RState) (e : REvent), e ∈ s.trace →
      e ∈ (processFold folder fmt ods td tok dry force s l).trace
  | [], _, _, h => h
  | f :: rest, s, e, h => by
    obtain ⟨e', he'⟩ := processOne_trace folder fmt ods td tok dry force s f
    exact processFold_trace_mono rest _ e
      (by rw [he']; exact List.mem_append_left _ h)

theorem processFold_trace_len :
    ∀ (l : List DirEntry) (s : RState),
      (processFold folder fmt ods td tok dry force s l).trace.length =
        s.trace.length + l.length
  | [], _ => rfl
  | f :: rest, s => by
    obtain ⟨e', he'⟩ := processOne_trace folder fmt ods td tok dry force s f
    rw [processFold, processFold_trace_len rest _, he']
    simp [List.length_append]
    omega

/-- In a non-overwrite run, the loop body only ever renames onto a path
that was absent from the filesystem at decision time, or onto the file's
own current path. -/
theorem decideAction_rename_not_exists {fs : List FPath} {cur : Nat}
    {f : DirEntry} {tgt : FPath} {idx : Nat} {via_ : Bool}
    (h : decideAction folder fmt ods td tok dry false fs cur f =
      .doRename tgt idx via_) :
    tgt ∉ fs ∨ tgt = (⟨folder, f.name⟩ : FPath) := by
  unfold decideAction at h
  cases hfmt : fmt cur with
  | none => rw [hfmt] at h; exact absurd h (by simp)
  | some base =>
    rw [hfmt] at h
    simp only at h
    rcases hcl : conflictLoop fs td ⟨folder, f.name⟩ (pySuffix f.name) fmt false
        10 cur ⟨td, base ++ pySuffix f.name⟩ with ⟨opt, resolved, att⟩
    rw [hcl] at h
    cases opt with
    | none => exact absurd h (by simp)
    | some t =>
      simp only at h
      have htgt : tgt = t := by
        split at h
        · exact absurd h (by simp)
        · split at h
          · exact absurd h (by simp)
          · split at h
            · split at h
              · cases h; rfl
              · exact absurd h (by simp)
            · split at h
              · exact absurd h (by simp)
              · cases h; rfl
      subst htgt
      by_cases ht : tgt ∈ fs
      · by_cases hts : tgt = (⟨folder, f.name⟩ : FPath)
        · exact Or.inr hts
        · rw [if_pos ⟨ht, trivial, hts⟩] at h
          exact absurd h (by simp)
      · exact Or.inl ht

end RenameStep

/-! ## Safety of the rename session (no file is lost) -/

/-- Event `e` records a rename of `src` whose target is still in `fs`. -/
def rRenamedInto (src : FPath) (fs : List FPath) : REvent → Bool
  | .renamed s t _ _ => decide (s = src) && decide (t ∈ fs)
  | _ => false

/-- The file that was at `src` is accounted for in state `s`: either the
path `src` still exists, or the trace shows it was renamed onto a target
that still exists. -/
def rKeeps (s : RState) (src : FPath) : Prop :=
  src ∈ s.fs ∨ ∃ e ∈ s.trace, rRenamedInto src s.fs e = true

section RenameSafety

variable (folder : String) (fmt : Nat → Option String) (ods : Bool)
  (td : String) (tok dry : Bool)

/-- In a non-overwrite step, either the filesystem is untouched, or the
file was renamed onto a target that was free (or was its own path), with
the rename recorded in the trace. -/
theorem processOne_step_cases (s : RState) (f : DirEntry) :
    (processOne folder fmt ods td tok dry false s f).fs = s.fs ∨
      ∃ tgt idx,
        (processOne folder fmt ods td tok dry false s f).fs =
          insertPath tgt (s.fs.erase ⟨folder, f.name⟩) ∧
        REvent.renamed ⟨folder, f.name⟩ tgt idx (decide (tgt ∉ s.fs)) ∈
          (processOne folder fmt ods td tok dry false s f).trace ∧
        (tgt ∉ s.fs ∨ tgt = (⟨folder, f.name⟩ : FPath)) := by
  cases ha : decideAction folder fmt ods td tok dry false s.fs s.cursor f with
  | doRename tgt idx via_ =>
    rw [processOne, ha]
    right
    exact ⟨tgt, idx, rfl, by simp [applyAction],
      decideAction_rename_not_exists folder fmt ods td tok dry ha⟩
  | fmtErr => rw [processOne, ha]; left; rfl
  | fmtErrLoop => rw [processOne, ha]; left; rfl
  | conflictSkip tgt => rw [processOne, ha]; left; rfl
  | preview tgt idx => rw [processOne, ha]; left; rfl
  | raceSkip tgt => rw [processOne, ha]; left; rfl
  | moveErr tgt => rw [processOne, ha]; left; rfl

theorem processFold_safety :
    ∀ (l : List DirEntry) (s : RState),
      (∀ g ∈ l, (⟨folder, g.name⟩ : FPath) ∈ s.fs) →
      (l.map DirEntry.name).Nodup →
      ∀ f ∈ l,
        rKeeps (processFold folder fmt ods td tok dry false s l) ⟨folder, f.name⟩
  | [], _, _, _, _, hf => absurd hf (List.not_mem_nil _)
  | f :: rest, s, hcons, hnodup, g, hg => by
    have hnamene : ∀ g' ∈ rest, g'.name ≠ f.name := by
      intro g' hg' he
      have : f.name ∈ rest.map DirEntry.name := he ▸ List.mem_map_of_mem _ hg'
      exact (List.nodup_cons.mp (by simpa using hnodup)).1 this
    have hpathne : ∀ g' ∈ rest,
        (⟨folder, g'.name⟩ : FPath) ≠ (⟨folder, f.name⟩ : FPath) := by
      intro g' hg' he
      exact hnamene g' hg' (by simpa [FPath.mk.injEq] using he)
    have hrest_cons : ∀ g' ∈ rest, (⟨folder, g'.name⟩ : FPath) ∈
        (processOne folder fmt ods td tok dry false s f).fs := by
      intro g' hg'
      exact processOne_fs_mem folder fmt ods td tok dry false
        (hcons g' (List.mem_cons_of_mem f hg')) (hpathne g' hg')
    have hrest_nodup : (rest.map DirEntry.name).Nodup :=
      (List.nodup_cons.mp (by simpa using hnodup)).2
    have hfold : processFold folder fmt ods td tok dry false s (f :: rest) =
        processFold folder fmt ods td tok dry false
          (processOne folder fmt ods td tok dry false s f) rest := rfl
    rcases List.mem_cons.mp hg with rfl | hgr
    · -- the file processed in this step
      rcases processOne_step_cases folder fmt ods td tok dry s g with
        hsame | ⟨tgt, idx, hfs, hev, hfree⟩
      · -- no mutation: the original path survives the rest of the fold
        rw [hfold]
        exact Or.inl (processFold_fs_mem folder fmt ods td tok dry false rest _ _
          (hsame ▸ hcons g (List.mem_cons_self g rest)) (fun g' hg' => hpathne g' hg'))
      · -- renamed: the recorded target survives the rest of the fold
        rw [hfold]
        right
        refine ⟨REvent.renamed ⟨folder, g.name⟩ tgt idx (decide (tgt ∉ s.fs)),
          processFold_trace_mono folder fmt ods td tok dry false rest _ _ hev, ?_⟩
        have htgt_mem : tgt ∈ (processOne folder fmt ods td tok dry false s g).fs := by
          rw [hfs]; exact mem_insertPath.mpr (Or.inl rfl)
        have htgt_ne : ∀ g' ∈ rest, (⟨folder, g'.name⟩ : FPath) ≠ tgt := by
          intro g' hg' he
          rcases hfree with hfr | hfr
          · exact hfr (he ▸ hcons g' (List.mem_cons_of_mem g hg'))
          · exact hpathne g' hg' (he.trans hfr)
        have : tgt ∈ (processFold folder fmt ods td tok dry false
            (processOne folder fmt ods td tok dry false s g) rest).fs :=
          processFold_fs_mem folder fmt ods td tok dry false rest _ _ htgt_mem htgt_ne
        simp [rRenamedInto, this]
    · -- a later file: apply the induction hypothesis
      rw [hfold]
      exact processFold_safety rest _ hrest_cons hrest_nodup g hgr

/-- Freshness of recorded renames is preserved along the fold: in a
non-overwrite run, every `renamed` event either had a free target or
renamed the file onto its own path. -/
theorem processFold_fresh :
    ∀ (l : List DirEntry) (s : RState),
      (∀ src tgt idx fr, REvent.renamed src tgt idx fr ∈ s.trace →
        fr = true ∨ tgt = src) →
      ∀ src tgt idx fr, REvent.renamed src tgt idx fr ∈
          (processFold folder fmt ods td tok dry false s l).trace →
        fr = true ∨ tgt = src
  | [], _, hinv, src, tgt, idx, fr, hmem => hinv src tgt idx fr hmem
  | f :: rest, s, hinv, src, tgt, idx, fr, hmem => by
    refine processFold_fresh rest
      (processOne folder fmt ods td tok dry false s f) ?_ src tgt idx fr hmem
    intro src' tgt' idx' fr' hmem'
    cases ha : decideAction folder fmt ods td tok dry false s.fs s.cursor f with
    | doRename t i v =>
      rw [processOne, ha] at hmem'
      simp only [applyAction, List.mem_append, List.mem_singleton] at hmem'
      rcases hmem' with hold | hnew
      · exact hinv src' tgt' idx' fr' hold
      · have h1 := (REvent.renamed.injEq _ _ _ _ _ _ _ _).mp hnew
        rcases decideAction_rename_not_exists folder fmt ods td tok dry ha with
          hfree | hself
        · left; rw [h1.2.2.2]; simpa using hfree
        · right; rw [h1.2.1, h1.1]; exact hself
    | fmtErr =>
      rw [processOne, ha] at hmem'
      simp only [applyAction, List.mem_append, List.mem_singleton] at hmem'
      rcases hmem' with hold | hnew
      · exact hinv src' tgt' idx' fr' hold
      · exact absurd hnew (by simp)
    | fmtErrLoop =>
      rw [processOne, ha] at hmem'
      simp only [applyAction, List.mem_append, List.mem_singleton] at hmem'
      rcases hmem' with hold | hnew
      · exact hinv src' tgt' idx' fr' hold
      · exact absurd hnew (by simp)
    | conflictSkip t =>
      rw [processOne, ha] at hmem'
      simp only [applyAction, List.mem_append, List.mem_singleton] at hmem'
      rcases hmem' with hold | hnew
      · exact hinv src' tgt' idx' fr' hold
      · exact absurd hnew (by simp)
    | preview t i =>
      rw [processOne, ha] at hmem'
      simp only [applyAction, List.mem_append, List.mem_singleton] at hmem'
      rcases hmem' with hold | hnew
      · exact hinv src' tgt' idx' fr' hold
      · exact absurd hnew (by simp)
    | raceSkip t =>
      rw [processOne, ha] at hmem'
      simp only [applyAction, List.mem_append, List.mem_singleton] at hmem'
      rcases hmem' with hold | hnew
      · exact hinv src' tgt' idx' fr' hold
      · exact absurd hnew (by simp)
    | moveErr t =>
      rw [processOne, ha] at hmem'
      simp only [applyAction, List.mem_append, List.mem_singleton] at hmem'
      rcases hmem' with hold | hnew
      · exact hinv src' tgt' idx' fr' hold
      · exact absurd hnew (by simp)

end RenameSafety

/-! ## Safety of the extension-change session -/

/-- Event `e` records an extension change of `src` whose target is still
present in `fs`. -/
def cChangedInto (src : FPath) (fs : List FPath) : CEvent → Bool
  | .changed s t _ => decide (s = src) && decide (t ∈ fs)
  | _ => false

/-- The file that was at `src` is accounted for in state `s`. -/
def cKeeps (s : CState) (src : FPath) : Prop :=
  src ∈ s.fs ∨ ∃ e ∈ s.trace, cChangedInto src s.fs e = true

section CeStep

variable (folder ne : String) (ods : Bool) (td : String) (tok dry : Bool)

theorem ceApply_fs (s : CState) (f : DirEntry) : ∀ a : CAction,
    (ceApply folder s f a).fs = s.fs ∨
      ∃ tgt, (ceApply folder s f a).fs =
        insertPath tgt (s.fs.erase ⟨folder, f.name⟩)
  | .conflictSkip _ => Or.inl rfl
  | .preview _ => Or.inl rfl
  | .doChange tgt _ => Or.inr ⟨tgt, rfl⟩
  | .moveErr _ => Or.inl rfl

theorem ceApply_trace (s : CState) (f : DirEntry) : ∀ a : CAction,
    ∃ e, (ceApply folder s f a).trace = s.trace ++ [e]
  | .conflictSkip _ => ⟨_, rfl⟩
  | .preview _ => ⟨_, rfl⟩
  | .doChange _ _ => ⟨_, rfl⟩
  | .moveErr _ => ⟨_, rfl⟩

theorem ceProcessOne_fs_mem {s : CState} {f : DirEntry} {p : FPath} (force : Bool)
    (h : p ∈ s.fs) (hne : p ≠ ⟨folder, f.name⟩) :
    p ∈ (ceProcessOne folder ne ods td tok dry force s f).fs := by
  rcases ceApply_fs folder s f
      (ceDecide folder ne ods td tok dry force s.fs f) with h1 | ⟨tgt, h1⟩
  · rw [ceProcessOne, h1]; exact h
  · rw [ceProcessOne, h1]
    exact mem_insertPath.mpr (Or.inr ((List.mem_erase_of_ne hne).mpr h))

theorem ceFold_fs_mem (force : Bool) :
    ∀ (l : List DirEntry) (s : CState) (p : FPath), p ∈ s.fs →
      (∀ g ∈ l, (⟨folder, g.name⟩ : FPath) ≠ p) →
      p ∈ (ceFold folder ne ods td tok dry force s l).fs
  | [], _, _, h, _ => h
  | f :: rest, s, p, h, hne =>
    ceFold_fs_mem force rest (ceProcessOne folder ne ods td tok dry force s f) p
      (ceProcessOne_fs_mem folder ne ods td tok dry force h
        (fun e => hne f (List.mem_cons_self f rest) e.symm))
      (fun g hg => hne g (List.mem_cons_of_mem f hg))

theorem ceFold_trace_mono (force : Bool) :
    ∀ (l : List DirEntry) (s : CState) (e : CEvent), e ∈ s.trace →
      e ∈ (ceFold folder ne ods td tok dry force s l).trace
  | [], _, _, h => h
  | f :: rest, s, e, h => by
    obtain ⟨e', he'⟩ := ceApply_trace folder s f
      (ceDecide folder ne ods td tok dry force s.fs f)
    exact ceFold_trace_mono force rest _ e
      (by rw [ceProcessOne, he']; exact List.mem_append_left _ h)

/-- In a non-overwrite step, the extension-change body only renames onto a
free target or onto the file's own path. -/
theorem ceDecide_change_not_exists {fs : List FPath} {f : DirEntry}
    {tgt : FPath} {via_ : Bool}
    (h : ceDecide folder ne ods td tok dry false fs f = .doChange tgt via_) :
    tgt ∉ fs ∨ tgt = (⟨folder, f.name⟩ : FPath) := by
  unfold ceDecide at h
  simp only at h
  have htgt : tgt = (⟨td, pyStem f.name ++ ne⟩ : FPath) := by
    split at h
    · exact absurd h (by simp)
    · split at h
      · exact absurd h (by simp)
      · split at h
        · split at h
          · cases h; rfl
          · exact absurd h (by simp)
        · cases h; rfl
  subst htgt
  by_cases ht : (⟨td, pyStem f.name ++ ne⟩ : FPath) ∈ fs
  · by_cases hts : (⟨td, pyStem f.name ++ ne⟩ : FPath) = (⟨folder, f.name⟩ : FPath)
    · exact Or.inr hts
    · rw [if_pos ⟨ht, hts, trivial⟩] at h
      exact absurd h (by simp)
  · exact Or.inl ht

theorem ceProcessOne_step_cases (s : CState) (f : DirEntry) :
    (ceProcessOne folder ne ods td tok dry false s f).fs = s.fs ∨
      ∃ tgt,
        (ceProcessOne folder ne ods td tok dry false s f).fs =
          insertPath tgt (s.fs.erase ⟨folder, f.name⟩) ∧
        CEvent.changed ⟨folder, f.name⟩ tgt (decide (tgt ∉ s.fs)) ∈
          (ceProcessOne folder ne ods td tok dry false s f).trace ∧
        (tgt ∉ s.fs ∨ tgt = (⟨folder, f.name⟩ : FPath)) := by
  cases ha : ceDecide folder ne ods td tok dry false s.fs f with
  | doChange tgt via_ =>
    rw [ceProcessOne, ha]
    right
    exact ⟨tgt, rfl, by simp [ceApply],
      ceDecide_change_not_exists folder ne ods td tok dry ha⟩
  | conflictSkip tgt => rw [ceProcessOne, ha]; left; rfl
  | preview tgt => rw [ceProcessOne, ha]; left; rfl
  | moveErr tgt => rw [ceProcessOne, ha]; left; rfl

theorem ceFold_safety :
    ∀ (l : List DirEntry) (s : CState),
      (∀ g ∈ l, (⟨folder, g.name⟩ : FPath) ∈ s.fs) →
      (l.map DirEntry.name).Nodup →
      ∀ f ∈ l,
        cKeeps (ceFold folder ne ods td tok dry false s l) ⟨folder, f.name⟩
  | [], _, _, _, _, hf => absurd hf (List.not_mem_nil _)
  | f :: rest, s, hcons, hnodup, g, hg => by
    have hnamene : ∀ g' ∈ rest, g'.name ≠ f.name := by
      intro g' hg' he
      have : f.name ∈ rest.map DirEntry.name := he ▸ List.mem_map_of_mem _ hg'
      exact (List.nodup_cons.mp (by simpa using hnodup)).1 this
    have hpathne : ∀ g' ∈ rest,
        (⟨folder, g'.name⟩ : FPath) ≠ (⟨folder, f.name⟩ : FPath) := by
      intro g' hg' he
      exact hnamene g' hg' (by simpa [FPath.mk.injEq] using he)
    have hrest_cons : ∀ g' ∈ rest, (⟨folder, g'.name⟩ : FPath) ∈
        (ceProcessOne folder ne ods td tok dry false s f).fs := by
      intro g' hg'
      exact ceProcessOne_fs_mem folder ne ods td tok dry false
        (hcons g' (List.mem_cons_of_mem f hg')) (hpathne g' hg')
    have hrest_nodup : (rest.map DirEntry.name).Nodup :=
      (List.nodup_cons.mp (by simpa using hnodup)).2
    have hfold : ceFold folder ne ods td tok dry false s (f :: rest) =
        ceFold folder ne ods td tok dry false
          (ceProcessOne folder ne ods td tok dry false s f) rest := rfl
    rcases List.mem_cons.mp hg with rfl | hgr
    · rcases ceProcessOne_step_cases folder ne ods td tok dry s g with
        hsame | ⟨tgt, hfs, hev, hfree⟩
      · rw [hfold]
        exact Or.inl (ceFold_fs_mem folder ne ods td tok dry false rest _ _
          (hsame ▸ hcons g (List.mem_cons_self g rest)) (fun g' hg' => hpathne g' hg'))
      · rw [hfold]
        right
        refine ⟨CEvent.changed ⟨folder, g.name⟩ tgt (decide (tgt ∉ s.fs)),
          ceFold_trace_mono folder ne ods td tok dry false rest _ _ hev, ?_⟩
        have htgt_mem : tgt ∈ (ceProcessOne folder ne ods td tok dry false s g).fs := by
          rw [hfs]; exact mem_insertPath.mpr (Or.inl rfl)
        have htgt_ne : ∀ g' ∈ rest, (⟨folder, g'.name⟩ : FPath) ≠ tgt := by
          intro g' hg' he
          rcases hfree with hfr | hfr
          · exact hfr (he ▸ hcons g' (List.mem_cons_of_mem g hg'))
          · exact hpathne g' hg' (he.trans hfr)
        have : tgt ∈ (ceFold folder ne ods td tok dry false
            (ceProcessOne folder ne ods td tok dry false s g) rest).fs :=
          ceFold_fs_mem folder ne ods td tok dry false rest _ _ htgt_mem htgt_ne
        simp [cChangedInto, this]
    · rw [hfold]
      exact ceFold_safety rest _ hrest_cons hrest_nodup g hgr

/-- Freshness of recorded extension changes in a non-overwrite run. -/
theorem ceFold_fresh :
    ∀ (l : List DirEntry) (s : CState),
      (∀ src tgt fr, CEvent.changed src tgt fr ∈ s.trace →
        fr = true ∨ tgt = src) →
      ∀ src tgt fr, CEvent.changed src tgt fr ∈
          (ceFold folder ne ods td tok dry false s l).trace →
        fr = true ∨ tgt = src
  | [], _, hinv, src, tgt, fr, hmem => hinv src tgt fr hmem
  | f :: rest, s, hinv, src, tgt, fr, hmem => by
    refine ceFold_fresh rest
      (ceProcessOne folder ne ods td tok dry false s f) ?_ src tgt fr hmem
    intro src' tgt' fr' hmem'
    cases ha : ceDecide folder ne ods td tok dry false s.fs f with
    | doChange t v =>
      rw [ceProcessOne, ha] at hmem'
      simp only [ceApply, List.mem_append, List.mem_singleton] at hmem'
      rcases hmem' with hold | hnew
      · exact hinv src' tgt' fr' hold
      · have h1 := (CEvent.changed.injEq _ _ _ _ _ _).mp hnew
        rcases ceDecide_change_not_exists folder ne ods td tok dry ha with
          hfree | hself
        · left; rw [h1.2.2]; simpa using hfree
        · right; rw [h1.2.1, h1.1]; exact hself
    | conflictSkip t =>
      rw [ceProcessOne, ha] at hmem'
      simp only [ceApply, List.mem_append, List.mem_singleton] at hmem'
      rcases hmem' with hold | hnew
      · exact hinv src' tgt' fr' hold
      · exact absurd hnew (by simp)
    | preview t =>
      rw [ceProcessOne, ha] at hmem'
      simp only [ceApply, List.mem_append, List.mem_singleton] at hmem'
      rcases hmem' with hold | hnew
      · exact hinv src' tgt' fr' hold
      · exact absurd hnew (by simp)
    | moveErr t =>
      rw [ceProcessOne, ha] at hmem'
      simp only [ceApply, List.mem_append, List.mem_singleton] at hmem'
      rcases hmem' with hold | hnew
      · exact hinv src' tgt' fr' hold
      · exact absurd hnew (by simp)

end CeStep

/-! ## Index-cursor accounting -/

/-- The index consumed by an event: only a successful rename or a dry-run
preview consumes an index. -/
def consumedIdx : REvent → Option Nat
  | .renamed _ _ i _ => some i
  | .previewed _ _ i => some i
  | _ => none

section CursorLemmas

variable (folder : String) (fmt : Nat → Option String) (ods : Bool)
  (td : String) (tok dry force : Bool)

/-- An index handed out by the loop body (for preview or rename) is at
least the cursor value the body started from. -/
theorem decideAction_consumed_ge {fs : List FPath} {cur : Nat} {f : DirEntry}
    {tgt : FPath} {idx : Nat} (via_ : Bool)
    (h : decideAction folder fmt ods td tok dry force fs cur f = .preview tgt idx ∨
         decideAction folder fmt ods td tok dry force fs cur f = .doRename tgt idx via_) :
    cur ≤ idx := by
  unfold decideAction at h
  cases hfmt : fmt cur with
  | none => rw [hfmt] at h; rcases h with h | h <;> exact absurd h (by simp)
  | some base =>
    rw [hfmt] at h
    simp only at h
    have hge := conflictLoop_resolved_ge fs td ⟨folder, f.name⟩ (pySuffix f.name)
      fmt force 10 cur ⟨td, base ++ pySuffix f.name⟩
    rcases hcl : conflictLoop fs td ⟨folder, f.name⟩ (pySuffix f.name) fmt force
        10 cur ⟨td, base ++ pySuffix f.name⟩ with ⟨opt, resolved, att⟩
    rw [hcl] at h hge
    cases opt with
    | none => rcases h with h | h <;> exact absurd h (by simp)
    | some t =>
      simp only at h hge
      rcases h with h | h
      · split at h
        · exact absurd h (by simp)
        · split at h
          · cases h; exact hge
          · split at h
            · split at h
              · exact absurd h (by simp)
              · exact absurd h (by simp)
            · split at h
              · exact absurd h (by simp)
              · exact absurd h (by simp)
      · split at h
        · exact absurd h (by simp)
        · split at h
          · exact absurd h (by simp)
          · split at h
            · split at h
              · cases h; exact hge
              · exact absurd h (by simp)
            · split at h
              · exact absurd h (by simp)
              · cases h; exact hge

theorem processOne_consumed (s : RState) (f : DirEntry)
    (hp : (s.trace.filterMap consumedIdx).Pairwise (· < ·))
    (hb : ∀ i ∈ s.trace.filterMap consumedIdx, i < s.cursor) :
    ((processOne folder fmt ods td tok dry force s f).trace.filterMap
        consumedIdx).Pairwise (· < ·) ∧
      ∀ i ∈ (processOne folder fmt ods td tok dry force s f).trace.filterMap
          consumedIdx,
        i < (processOne folder fmt ods td tok dry force s f).cursor := by
  cases ha : decideAction folder fmt ods td tok dry force s.fs s.cursor f with
  | fmtErr =>
    rw [processOne, ha]
    refine ⟨by simpa [applyAction, List.filterMap_append, consumedIdx] using hp, ?_⟩
    intro i hi
    simp only [applyAction, List.filterMap_append] at hi ⊢
    simp only [consumedIdx, List.filterMap, List.append_nil] at hi
    exact Nat.lt_succ_of_lt (hb i hi)
  | fmtErrLoop =>
    rw [processOne, ha]
    refine ⟨by simpa [applyAction, List.filterMap_append, consumedIdx] using hp, ?_⟩
    intro i hi
    simp only [applyAction, List.filterMap_append] at hi ⊢
    simp only [consumedIdx, List.filterMap, List.append_nil] at hi
    exact hb i hi
  | conflictSkip t =>
    rw [processOne, ha]
    refine ⟨by simpa [applyAction, List.filterMap_append, consumedIdx] using hp, ?_⟩
    intro i hi
    simp only [applyAction, List.filterMap_append] at hi ⊢
    simp only [consumedIdx, List.filterMap, List.append_nil] at hi
    exact Nat.lt_succ_of_lt (hb i hi)
  | raceSkip t =>
    rw [processOne, ha]
    refine ⟨by simpa [applyAction, List.filterMap_append, consumedIdx] using hp, ?_⟩
    intro i hi
    simp only [applyAction, List.filterMap_append] at hi ⊢
    simp only [consumedIdx, List.filterMap, List.append_nil] at hi
    exact Nat.lt_succ_of_lt (hb i hi)
  | moveErr t =>
    rw [processOne, ha]
    refine ⟨by simpa [applyAction, List.filterMap_append, consumedIdx] using hp, ?_⟩
    intro i hi
    simp only [applyAction, List.filterMap_append] at hi ⊢
    simp only [consumedIdx, List.filterMap, List.append_nil] at hi
    exact Nat.lt_succ_of_lt (hb i hi)
  | preview t i =>
    have hge : s.cursor ≤ i :=
      decideAction_consumed_ge folder fmt ods td tok dry force true (Or.inl ha)
    rw [processOne, ha]
    constructor
    · simp only [applyAction, List.filterMap_append]
      refine List.pairwise_append.mpr ⟨hp, by simp [consumedIdx], ?_⟩
      intro a ha' b hb'
      simp only [consumedIdx, List.filterMap, List.mem_singleton] at hb'
      have := hb a ha'
      omega
    · intro j hj
      simp only [applyAction, List.filterMap_append, List.mem_append] at hj ⊢
      rcases hj with hj | hj
      · exact Nat.lt_succ_of_lt (Nat.lt_of_lt_of_le (hb j hj) hge)
      · simp only [consumedIdx, List.filterMap, List.mem_singleton] at hj
        omega
  | doRename t i v =>
    have hge : s.cursor ≤ i :=
      decideAction_consumed_ge folder fmt ods td tok dry force v (Or.inr ha)
    rw [processOne, ha]
    constructor
    · simp only [applyAction, List.filterMap_append]
      refine List.pairwise_append.mpr ⟨hp, by simp [consumedIdx], ?_⟩
      intro a ha' b hb'
      simp only [consumedIdx, List.filterMap, List.mem_singleton] at hb'
      have := hb a ha'
      omega
    · intro j hj
      simp only [applyAction, List.filterMap_append, List.mem_append] at hj ⊢
      rcases hj with hj | hj
      · exact Nat.lt_succ_of_lt (Nat.lt_of_lt_of_le (hb j hj) hge)
      · simp only [consumedIdx, List.filterMap, List.mem_singleton] at hj
        omega

theorem processFold_consumed :
    ∀ (l : List DirEntry) (s : RState),
      (s.trace.filterMap consumedIdx).Pairwise (· < ·) →
      (∀ i ∈ s.trace.filterMap consumedIdx, i < s.cursor) →
      ((processFold folder fmt ods td tok dry force s l).trace.filterMap
          consumedIdx).Pairwise (· < ·) ∧
        ∀ i ∈ (processFold folder fmt ods td tok dry force s l).trace.filterMap
            consumedIdx,
          i < (processFold folder fmt ods td tok dry force s l).cursor
  | [], _, hp, hb => ⟨hp, hb⟩
  | f :: rest, s, hp, hb => by
    obtain ⟨hp', hb'⟩ := processOne_consumed folder fmt ods td tok dry force s f hp hb
    exact processFold_consumed rest _ hp' hb'

/-- A step whose recorded event is a post-search conflict skip advances the
cursor by exactly one and leaves the filesystem untouched. -/
theorem processOne_conflictSkip_cursor {s : RState} {f : DirEntry}
    {src tgt : FPath}
    (h : (processOne folder fmt ods td tok dry force s f).trace =
      s.trace ++ [REvent.conflictSkip src tgt]) :
    (processOne folder fmt ods td tok dry force s f).cursor = s.cursor + 1 ∧
      (processOne folder fmt ods td tok dry force s f).fs = s.fs := by
  cases ha : decideAction folder fmt ods td tok dry force s.fs s.cursor f with
  | conflictSkip t => rw [processOne, ha]; exact ⟨rfl, rfl⟩
  | fmtErr =>
    rw [processOne, ha] at h
    exact absurd (List.append_cancel_left h) (by simp)
  | fmtErrLoop =>
    rw [processOne, ha] at h
    exact absurd (List.append_cancel_left h) (by simp)
  | preview t i =>
    rw [processOne, ha] at h
    exact absurd (List.append_cancel_left h) (by simp)
  | doRename t i v =>
    rw [processOne, ha] at h
    exact absurd (List.append_cancel_left h) (by simp)
  | raceSkip t =>
    rw [processOne, ha] at h
    exact absurd (List.append_cancel_left h) (by simp)
  | moveErr t =>
    rw [processOne, ha] at h
    exact absurd (List.append_cancel_left h) (by simp)

/-- A step whose recorded event is a format failure inside the conflict
loop does not advance the cursor at all. -/
theorem processOne_fmtErrLoop_cursor {s : RState} {f : DirEntry} {src : FPath}
    (h : (processOne folder fmt ods td tok dry force s f).trace =
      s.trace ++ [REvent.fmtErrorLoop src]) :
    (processOne folder fmt ods td tok dry force s f).cursor = s.cursor ∧
      (processOne folder fmt ods td tok dry force s f).fs = s.fs := by
  cases ha : decideAction folder fmt ods td tok dry force s.fs s.cursor f with
  | fmtErrLoop => rw [processOne, ha]; exact ⟨rfl, rfl⟩
  | fmtErr =>
    rw [processOne, ha] at h
    exact absurd (List.append_cancel_left h) (by simp)
  | conflictSkip t =>
    rw [processOne, ha] at h
    exact absurd (List.append_cancel_left h) (by simp)
  | preview t i =>
    rw [processOne, ha] at h
    exact absurd (List.append_cancel_left h) (by simp)
  | doRename t i v =>
    rw [processOne, ha] at h
    exact absurd (List.append_cancel_left h) (by simp)
  | raceSkip t =>
    rw [processOne, ha] at h
    exact absurd (List.append_cancel_left h) (by simp)
  | moveErr t =>
    rw [processOne, ha] at h
    exact absurd (List.append_cancel_left h) (by simp)

end CursorLemmas

/-! ## Evaluation lemmas for the loop body -/

section BodyEval

variable (folder : String) (fmt : Nat → Option String) (ods : Bool)
  (td : String) (tok dry force : Bool)

theorem decideAction_resolved {fs : List FPath} {cur : Nat} {f : DirEntry}
    {base : String} {tgt : FPath} {resolved att : Nat}
    (hfmt : fmt cur = some base)
    (hcl : conflictLoop fs td ⟨folder, f.name⟩ (pySuffix f.name) fmt force 10 cur
      ⟨td, base ++ pySuffix f.name⟩ = (some tgt, resolved, att)) :
    decideAction folder fmt ods td tok dry force fs cur f =
      (if tgt ∈ fs ∧ force = false ∧ tgt ≠ (⟨folder, f.name⟩ : FPath) then
        .conflictSkip tgt
       else if dry = true then .preview tgt resolved
       else if ods = true ∨ (force = true ∧ tgt ∈ fs) then
         (if tok = true then .doRename tgt resolved true else .moveErr tgt)
       else if force = false ∧ tgt ∈ fs then .raceSkip tgt
       else .doRename tgt resolved false) := by
  unfold decideAction
  rw [hfmt]
  simp only
  rw [hcl]

/-- When every candidate index from the cursor through cursor + 10 hits an
existing, non-self path, the loop body skips the file as a conflict:
`skipped_conflicts` goes up by one, the cursor advances by exactly one, and
the filesystem is untouched. -/
theorem processOne_exhausted (g : Nat → String) (s : RState) (f : DirEntry)
    (h : ∀ k, k ≤ 10 →
      (⟨td, g (s.cursor + k) ++ pySuffix f.name⟩ : FPath) ∈ s.fs ∧
      (⟨td, g (s.cursor + k) ++ pySuffix f.name⟩ : FPath) ≠ ⟨folder, f.name⟩) :
    processOne folder (fun i => some (g i)) ods td tok dry false s f =
      { s with skippedConflicts := s.skippedConflicts + 1,
               cursor := s.cursor + 1,
               trace := s.trace ++ [REvent.conflictSkip ⟨folder, f.name⟩
                 ⟨td, g (s.cursor + 10) ++ pySuffix f.name⟩] } := by
  have hcl := conflictLoop_exhausted s.fs td ⟨folder, f.name⟩ (pySuffix f.name)
    g 10 s.cursor h
  have hda := decideAction_resolved folder (fun i => some (g i)) ods td tok dry
    false rfl hcl
  rw [processOne, hda,
    if_pos ⟨(h 10 (Nat.le_refl 10)).1, rfl, (h 10 (Nat.le_refl 10)).2⟩]
  rfl

/-- When the straight-line target at the current cursor is free, the loop
body succeeds immediately: preview in dry mode, mutation otherwise, and
the cursor advances by one. -/
theorem processOne_fresh_target (g : Nat → String) (s : RState) (f : DirEntry)
    (h : (⟨td, g s.cursor ++ pySuffix f.name⟩ : FPath) ∉ s.fs) :
    processOne folder (fun i => some (g i)) ods td true dry force s f =
      if dry then
        { s with previewedCount := s.previewedCount + 1, cursor := s.cursor + 1,
                 trace := s.trace ++ [REvent.previewed ⟨folder, f.name⟩
                   ⟨td, g s.cursor ++ pySuffix f.name⟩ s.cursor] }
      else
        { s with fs := insertPath ⟨td, g s.cursor ++ pySuffix f.name⟩
                   (s.fs.erase ⟨folder, f.name⟩),
                 renamedCount := s.renamedCount + 1, cursor := s.cursor + 1,
                 trace := s.trace ++ [REvent.renamed ⟨folder, f.name⟩
                   ⟨td, g s.cursor ++ pySuffix f.name⟩ s.cursor true] } := by
  have hcl := conflictLoop_immediate s.fs td ⟨folder, f.name⟩ (pySuffix f.name)
    (fun i => some (g i)) force s.cursor ⟨td, g s.cursor ++ pySuffix f.name⟩
    (Or.inl h)
  have hda := decideAction_resolved folder (fun i => some (g i)) ods td true dry
    force rfl hcl
  by_cases hdry : dry = true
  · subst hdry
    have hact : decideAction folder (fun i => some (g i)) ods td true true force
        s.fs s.cursor f =
        RAction.preview ⟨td, g s.cursor ++ pySuffix f.name⟩ s.cursor := by
      rw [hda, if_neg (fun hc => h hc.1), if_pos rfl]
    rw [processOne, hact]
    simp [applyAction]
  · have hdry' : dry = false := by
      cases dry
      · rfl
      · exact absurd rfl hdry
    subst hdry'
    by_cases hods : ods = true
    · have hact : decideAction folder (fun i => some (g i)) ods td true false
          force s.fs s.cursor f =
          RAction.doRename ⟨td, g s.cursor ++ pySuffix f.name⟩ s.cursor true := by
        rw [hda, if_neg (fun hc => h hc.1), if_neg (by simp),
          if_pos (Or.inl hods), if_pos rfl]
      rw [processOne, hact]
      simp [applyAction, h]
    · have hact : decideAction folder (fun i => some (g i)) ods td true false
          force s.fs s.cursor f =
          RAction.doRename ⟨td, g s.cursor ++ pySuffix f.name⟩ s.cursor false := by
        rw [hda, if_neg (fun hc => h hc.1), if_neg (by simp),
          if_neg (by
            rintro (hc | hc)
            · exact hods hc
            · exact h hc.2),
          if_neg (fun hc => h hc.2)]
      rw [processOne, hact]
      simp [applyAction, h]

/-- In dry-run mode the loop body never mutates. -/
theorem decideAction_dry {fs : List FPath} {cur : Nat} {f : DirEntry}
    {tgt : FPath} {idx : Nat} {via_ : Bool}
    (h : decideAction folder fmt ods td tok true force fs cur f =
      .doRename tgt idx via_) : False := by
  unfold decideAction at h
  cases hfmt : fmt cur with
  | none => rw [hfmt] at h; exact absurd h (by simp)
  | some base =>
    rw [hfmt] at h
    simp only at h
    rcases hcl : conflictLoop fs td ⟨folder, f.name⟩ (pySuffix f.name) fmt force
        10 cur ⟨td, base ++ pySuffix f.name⟩ with ⟨opt, resolved, att⟩
    rw [hcl] at h
    cases opt with
    | none => exact absurd h (by simp)
    | some t =>
      simp only at h
      split at h
      · exact absurd h (by simp)
      · split at h
        · exact absurd h (by simp)
        · exact absurd trivial (by assumption)

/-- Outside dry-run mode the loop body never previews. -/
theorem decideAction_live {fs : List FPath} {cur : Nat} {f : DirEntry}
    {tgt : FPath} {idx : Nat}
    (h : decideAction folder fmt ods td tok false force fs cur f =
      .preview tgt idx) : False := by
  unfold decideAction at h
  cases hfmt : fmt cur with
  | none => rw [hfmt] at h; exact absurd h (by simp)
  | some base =>
    rw [hfmt] at h
    simp only at h
    rcases hcl : conflictLoop fs td ⟨folder, f.name⟩ (pySuffix f.name) fmt force
        10 cur ⟨td, base ++ pySuffix f.name⟩ with ⟨opt, resolved, att⟩
    rw [hcl] at h
    cases opt with
    | none => exact absurd h (by simp)
    | some t =>
      simp only at h
      split at h
      · exact absurd h (by simp)
      · split at h
        · exact absurd (by assumption : false = true) (by simp)
        · split at h
          · split at h
            · exact absurd h (by simp)
            · exact absurd h (by simp)
          · split at h
            · exact absurd h (by simp)
            · exact absurd h (by simp)

/-- A dry run leaves the filesystem and the mutation counter untouched. -/
theorem processFold_dry_inv :
    ∀ (l : List DirEntry) (s : RState),
      (processFold folder fmt ods td tok true force s l).fs = s.fs ∧
        (processFold folder fmt ods td tok true force s l).renamedCount =
          s.renamedCount
  | [], _ => ⟨rfl, rfl⟩
  | f :: rest, s => by
    have step : (processOne folder fmt ods td tok true force s f).fs = s.fs ∧
        (processOne folder fmt ods td tok true force s f).renamedCount =
          s.renamedCount := by
      cases ha : decideAction folder fmt ods td tok true force s.fs s.cursor f with
      | doRename t i v =>
        exact absurd ha (fun hh =>
          decideAction_dry folder fmt ods td tok force hh)
      | fmtErr => rw [processOne, ha]; exact ⟨rfl, rfl⟩
      | fmtErrLoop => rw [processOne, ha]; exact ⟨rfl, rfl⟩
      | conflictSkip t => rw [processOne, ha]; exact ⟨rfl, rfl⟩
      | preview t i => rw [processOne, ha]; exact ⟨rfl, rfl⟩
      | raceSkip t => rw [processOne, ha]; exact ⟨rfl, rfl⟩
      | moveErr t => rw [processOne, ha]; exact ⟨rfl, rfl⟩
    have ih := processFold_dry_inv rest
      (processOne folder fmt ods td tok true force s f)
    exact ⟨ih.1.trans step.1, ih.2.trans step.2⟩

/-- A live run never touches the preview counter. -/
theorem processFold_live_inv :
    ∀ (l : List DirEntry) (s : RState),
      (processFold folder fmt ods td tok false force s l).previewedCount =
        s.previewedCount
  | [], _ => rfl
  | f :: rest, s => by
    have step : (processOne folder fmt ods td tok false force s f).previewedCount =
        s.previewedCount := by
      cases ha : decideAction folder fmt ods td tok false force s.fs s.cursor f with
      | preview t i =>
        exact absurd ha (fun hh =>
          decideAction_live folder fmt ods td tok force hh)
      | fmtErr => rw [processOne, ha]; rfl
      | fmtErrLoop => rw [processOne, ha]; rfl
      | conflictSkip t => rw [processOne, ha]; rfl
      | doRename t i v => rw [processOne, ha]; rfl
      | raceSkip t => rw [processOne, ha]; rfl
      | moveErr t => rw [processOne, ha]; rfl
    exact (processFold_live_inv rest _).trans step

end BodyEval

/-! ## Straight-line runs: no target ever collides -/

/-- When every straight-line target (the pattern at index start + position,
plus the file's suffix) is absent from the current filesystem and all such
targets are pairwise distinct, every candidate succeeds at its straight-line
index: together the success and preview counters grow by exactly the number
of candidates, in dry and live mode alike. -/
theorem processFold_straightline (folder : String) (g : Nat → String)
    (ods : Bool) (td : String) (dry force : Bool) :
    ∀ (l : List DirEntry) (s : RState),
      (∀ k (hk : k < l.length),
        (⟨td, g (s.cursor + k) ++ pySuffix (l.get ⟨k, hk⟩).name⟩ : FPath) ∉ s.fs) →
      (∀ j k (hj : j < l.length) (hk : k < l.length), j ≠ k →
        (⟨td, g (s.cursor + j) ++ pySuffix (l.get ⟨j, hj⟩).name⟩ : FPath) ≠
          ⟨td, g (s.cursor + k) ++ pySuffix (l.get ⟨k, hk⟩).name⟩) →
      (processFold folder (fun i => some (g i)) ods td true dry force s l).renamedCount +
          (processFold folder (fun i => some (g i)) ods td true dry force s l).previewedCount =
        s.renamedCount + s.previewedCount + l.length
  | [], s, _, _ => by simp [processFold]
  | f :: rest, s, hfresh, hdist => by
    have h0 : (⟨td, g s.cursor ++ pySuffix f.name⟩ : FPath) ∉ s.fs := by
      have := hfresh 0 (by simp)
      simpa using this
    have hstep := processOne_fresh_target folder ods td dry force g s f h0
    have hfold : processFold folder (fun i => some (g i)) ods td true dry force
        s (f :: rest) =
        processFold folder (fun i => some (g i)) ods td true dry force
          (processOne folder (fun i => some (g i)) ods td true dry force s f)
          rest := rfl
    rw [hfold, hstep]
    by_cases hdry : dry = true
    · subst hdry
      rw [if_pos rfl]
      have ih := processFold_straightline folder g ods td true force rest
        { s with previewedCount := s.previewedCount + 1, cursor := s.cursor + 1,
                 trace := s.trace ++ [REvent.previewed ⟨folder, f.name⟩
                   ⟨td, g s.cursor ++ pySuffix f.name⟩ s.cursor] }
        (by
          intro k hk
          have e : s.cursor + 1 + k = s.cursor + (k + 1) := by omega
          have hf := hfresh (k + 1) (by simpa using Nat.succ_lt_succ hk)
          simp only [List.get_cons_succ] at hf
          simpa [e] using hf)
        (by
          intro j k hj hk hne
          have ej : s.cursor + 1 + j = s.cursor + (j + 1) := by omega
          have ek : s.cursor + 1 + k = s.cursor + (k + 1) := by omega
          have hd := hdist (j + 1) (k + 1) (by simpa using Nat.succ_lt_succ hj)
            (by simpa using Nat.succ_lt_succ hk) (by omega)
          simp only [List.get_cons_succ] at hd
          simpa [ej, ek] using hd)
      simp only at ih
      rw [ih]
      simp only [List.length_cons]
      omega
    · have hdry' : dry = false := by
        cases dry
        · rfl
        · exact absurd rfl hdry
      subst hdry'
      rw [if_neg (by simp)]
      have ih := processFold_straightline folder g ods td false force rest
        { s with fs := insertPath ⟨td, g s.cursor ++ pySuffix f.name⟩
                   (s.fs.erase ⟨folder, f.name⟩),
                 renamedCount := s.renamedCount + 1, cursor := s.cursor + 1,
                 trace := s.trace ++ [REvent.renamed ⟨folder, f.name⟩
                   ⟨td, g s.cursor ++ pySuffix f.name⟩ s.cursor true] }
        (by
          intro k hk
          have e : s.cursor + 1 + k = s.cursor + (k + 1) := by omega
          have hf := hfresh (k + 1) (by simpa using Nat.succ_lt_succ hk)
          simp only [List.get_cons_succ] at hf
          have hd := hdist 0 (k + 1) (by simp) (by simpa using Nat.succ_lt_succ hk)
            (by omega)
          simp only [List.get_cons_succ, List.get_cons_zero] at hd
          simp only [Nat.add_zero] at hd
          intro hmem
          simp only [e] at hmem
          rcases mem_insertPath.mp hmem with heq | hmem'
          · exact hd heq.symm
          · exact hf (List.mem_of_mem_erase hmem'))
        (by
          intro j k hj hk hne
          have ej : s.cursor + 1 + j = s.cursor + (j + 1) := by omega
          have ek : s.cursor + 1 + k = s.cursor + (k + 1) := by omega
          have hd := hdist (j + 1) (k + 1) (by simpa using Nat.succ_lt_succ hj)
            (by simpa using Nat.succ_lt_succ hk) (by omega)
          simp only [List.get_cons_succ] at hd
          simpa [ej, ek] using hd)
      simp only at ih
      rw [ih]
      simp only [List.length_cons]
      omega

section CeEval

variable (folder ne : String) (ods : Bool) (td : String) (tok dry force : Bool)

/-- In dry-run mode the extension-change body never mutates. -/
theorem ceDecide_dry {fs : List FPath} {f : DirEntry} {tgt : FPath} {via_ : Bool}
    (h : ceDecide folder ne ods td tok true force fs f = .doChange tgt via_) :
    False := by
  unfold ceDecide at h
  simp only at h
  split at h
  · exact absurd h (by simp)
  · exact absurd h (by simp)

/-- A dry extension-change run leaves the filesystem untouched. -/
theorem ceFold_dry_inv :
    ∀ (l : List DirEntry) (s : CState),
      (ceFold folder ne ods td tok true force s l).fs = s.fs
  | [], _ => rfl
  | f :: rest, s => by
    have step : (ceProcessOne folder ne ods td tok true force s f).fs = s.fs := by
      cases ha : ceDecide folder ne ods td tok true force s.fs f with
      | doChange t v =>
        exact absurd ha (fun hh => ceDecide_dry folder ne ods td tok force hh)
      | conflictSkip t => rw [ceProcessOne, ha]; rfl
      | preview t => rw [ceProcessOne, ha]; rfl
      | moveErr t => rw [ceProcessOne, ha]; rfl
    exact (ceFold_dry_inv rest _).trans step

/-- When the target is free, the extension-change body succeeds
immediately: preview in dry mode, mutation otherwise. -/
theorem ceProcessOne_fresh_target (s : CState) (f : DirEntry)
    (h : (⟨td, pyStem f.name ++ ne⟩ : FPath) ∉ s.fs) :
    ceProcessOne folder ne ods td true dry force s f =
      if dry then
        { s with processedCount := s.processedCount + 1,
                 trace := s.trace ++ [CEvent.previewed ⟨folder, f.name⟩
                   ⟨td, pyStem f.name ++ ne⟩] }
      else
        { s with fs := insertPath ⟨td, pyStem f.name ++ ne⟩
                   (s.fs.erase ⟨folder, f.name⟩),
                 processedCount := s.processedCount + 1,
                 trace := s.trace ++ [CEvent.changed ⟨folder, f.name⟩
                   ⟨td, pyStem f.name ++ ne⟩ true] } := by
  by_cases hdry : dry = true
  · subst hdry
    have hact : ceDecide folder ne ods td true true force s.fs f =
        CAction.preview ⟨td, pyStem f.name ++ ne⟩ := by
      unfold ceDecide
      simp only
      rw [if_neg (fun hc => h hc.1), if_pos trivial]
    rw [ceProcessOne, hact]
    simp [ceApply]
  · have hdry' : dry = false := by
      cases dry
      · rfl
      · exact absurd rfl hdry
    subst hdry'
    by_cases hods : ods = true
    · have hact : ceDecide folder ne ods td true false force s.fs f =
          CAction.doChange ⟨td, pyStem f.name ++ ne⟩ true := by
        unfold ceDecide
        simp only
        rw [if_neg (fun hc => h hc.1), if_neg (by simp),
          if_pos (Or.inl hods), if_pos trivial]
      rw [ceProcessOne, hact]
      simp [ceApply, h]
    · have hact : ceDecide folder ne ods td true false force s.fs f =
          CAction.doChange ⟨td, pyStem f.name ++ ne⟩ false := by
        unfold ceDecide
        simp only
        rw [if_neg (fun hc => h hc.1), if_neg (by simp),
          if_neg (by
            rintro (hc | hc)
            · exact hods hc
            · exact h hc.2)]
      rw [ceProcessOne, hact]
      simp [ceApply, h]

end CeEval

/-- Straight-line extension-change run: when every target is fresh and all
targets are pairwise distinct, every candidate is processed, in dry and
live mode alike. -/
theorem ceFold_straightline (folder ne : String) (ods : Bool) (td : String)
    (dry force : Bool) :
    ∀ (l : List DirEntry) (s : CState),
      (∀ f ∈ l, (⟨td, pyStem f.name ++ ne⟩ : FPath) ∉ s.fs) →
      (l.map (fun f => (⟨td, pyStem f.name ++ ne⟩ : FPath))).Nodup →
      (ceFold folder ne ods td true dry force s l).processedCount =
        s.processedCount + l.length
  | [], s, _, _ => by simp [ceFold]
  | f :: rest, s, hfresh, hnod => by
    have h0 := hfresh f (List.mem_cons_self f rest)
    have hstep := ceProcessOne_fresh_target folder ne ods td dry force s f h0
    have hfold : ceFold folder ne ods td true dry force s (f :: rest) =
        ceFold folder ne ods td true dry force
          (ceProcessOne folder ne ods td true dry force s f) rest := rfl
    have hnod' : (⟨td, pyStem f.name ++ ne⟩ : FPath) ∉
        rest.map (fun f => (⟨td, pyStem f.name ++ ne⟩ : FPath)) ∧
        (rest.map (fun f => (⟨td, pyStem f.name ++ ne⟩ : FPath))).Nodup := by
      rw [List.map_cons] at hnod
      exact List.nodup_cons.mp hnod
    rw [hfold, hstep]
    by_cases hdry : dry = true
    · subst hdry
      rw [if_pos rfl]
      have ih := ceFold_straightline folder ne ods td true force rest
        { s with processedCount := s.processedCount + 1,
                 trace := s.trace ++ [CEvent.previewed ⟨folder, f.name⟩
                   ⟨td, pyStem f.name ++ ne⟩] }
        (fun g hg => hfresh g (List.mem_cons_of_mem f hg))
        hnod'.2
      simp only at ih
      rw [ih]
      simp only [List.length_cons]
      omega
    · have hdry' : dry = false := by
        cases dry
        · rfl
        · exact absurd rfl hdry
      subst hdry'
      rw [if_neg (by simp)]
      have ih := ceFold_straightline folder ne ods td false force rest
        { s with fs := insertPath ⟨td, pyStem f.name ++ ne⟩
                   (s.fs.erase ⟨folder, f.name⟩),
                 processedCount := s.processedCount + 1,
                 trace := s.trace ++ [CEvent.changed ⟨folder, f.name⟩
                   ⟨td, pyStem f.name ++ ne⟩ true] }
        (by
          intro g hg hmem
          rcases mem_insertPath.mp hmem with heq | hmem'
          · exact hnod'.1 (heq ▸ List.mem_map_of_mem _ hg)
          · exact hfresh g (List.mem_cons_of_mem f hg) (List.mem_of_mem_erase hmem'))
        hnod'.2
      simp only at ih
      rw [ih]
      simp only [List.length_cons]
      omega

/-! ## Session-level run lemmas -/

theorem renameFiles_scan_error (cfg : RenameConfig) (w : World)
    (dry yes force : Bool) (e : ScanErr) (hscan : w.scan = Except.error e) :
    renameFiles cfg w dry yes force = .ok (0, rInit w.fs cfg.start 0) := by
  simp only [renameFiles, hscan]

theorem renameFiles_empty (cfg : RenameConfig) (w : World)
    (dry yes force : Bool) (listing : List DirEntry)
    (hscan : w.scan = Except.ok listing)
    (hemp : (renameSelection cfg listing).isEmpty = true) :
    renameFiles cfg w dry yes force =
      .ok (0, rInit w.fs cfg.start (renameSymCount cfg listing)) := by
  simp only [renameFiles, hscan]
  rw [if_pos hemp]

theorem renameFiles_declined (cfg : RenameConfig) (w : World)
    (dry yes force : Bool) (listing : List DirEntry)
    (hscan : w.scan = Except.ok listing)
    (hconf : (!dry && !yes && !w.confirmAnswer) = true) :
    renameFiles cfg w dry yes force =
      .ok (0, rInit w.fs cfg.start (renameSymCount cfg listing)) := by
  simp only [renameFiles, hscan]
  split
  · rfl
  · simp [hconf]

theorem renameFiles_run (cfg : RenameConfig) (w : World) (dry yes force : Bool)
    (listing : List DirEntry) (hscan : w.scan = Except.ok listing)
    (hne : (renameSelection cfg listing).isEmpty = false)
    (hconf : (!dry && !yes && !w.confirmAnswer) = false) :
    renameFiles cfg w dry yes force =
      .ok ((if dry then
              (processFold cfg.folder cfg.fmt cfg.outputDir.isSome
                (rTargetDir cfg) (rTargetOk cfg w) dry force
                (rInit w.fs cfg.start (renameSymCount cfg listing))
                (renameSelection cfg listing)).previewedCount
            else
              (processFold cfg.folder cfg.fmt cfg.outputDir.isSome
                (rTargetDir cfg) (rTargetOk cfg w) dry force
                (rInit w.fs cfg.start (renameSymCount cfg listing))
                (renameSelection cfg listing)).renamedCount),
           processFold cfg.folder cfg.fmt cfg.outputDir.isSome
             (rTargetDir cfg) (rTargetOk cfg w) dry force
             (rInit w.fs cfg.start (renameSymCount cfg listing))
             (renameSelection cfg listing)) := by
  simp only [renameFiles, hscan]
  rw [if_neg (by simp [hne]), if_neg (by simp [hconf])]

theorem changeExtensions_mkdir_failed (cfg : ChangeExtConfig) (w : World)
    (dry yes force : Bool) (hmk : ceMkdirFailed cfg w = true) :
    changeExtensions cfg w dry yes force = .ok (0, ceInit w.fs 0 0) := by
  simp only [changeExtensions]
  rw [if_pos hmk]

theorem changeExtensions_scan_error (cfg : ChangeExtConfig) (w : World)
    (dry yes force : Bool) (e : ScanErr) (hmk : ceMkdirFailed cfg w = false)
    (hscan : w.scan = Except.error e) :
    changeExtensions cfg w dry yes force = .error e := by
  simp only [changeExtensions, hscan]
  rw [if_neg (by simp [hmk])]

theorem changeExtensions_empty (cfg : ChangeExtConfig) (w : World)
    (dry yes force : Bool) (listing : List DirEntry)
    (hmk : ceMkdirFailed cfg w = false) (hscan : w.scan = Except.ok listing)
    (hemp : (ceSelection cfg listing).isEmpty = true) :
    changeExtensions cfg w dry yes force =
      .ok (0, ceInit w.fs (ceSymCount cfg listing) (ceAlreadyCount cfg listing)) := by
  simp only [changeExtensions, hscan]
  rw [if_neg (by simp [hmk]), if_pos hemp]

theorem changeExtensions_run (cfg : ChangeExtConfig) (w : World)
    (dry yes force : Bool) (listing : List DirEntry)
    (hmk : ceMkdirFailed cfg w = false) (hscan : w.scan = Except.ok listing)
    (hne : (ceSelection cfg listing).isEmpty = false)
    (hconf : (!dry && !yes && !w.confirmAnswer) = false) :
    changeExtensions cfg w dry yes force =
      .ok ((ceFold cfg.folder cfg.newExtension cfg.outputDir.isSome
              (cfg.outputDir.getD cfg.folder) true dry force
              (ceInit w.fs (ceSymCount cfg listing) (ceAlreadyCount cfg listing))
              (ceSelection cfg listing)).processedCount,
           ceFold cfg.folder cfg.newExtension cfg.outputDir.isSome
             (cfg.outputDir.getD cfg.folder) true dry force
             (ceInit w.fs (ceSymCount cfg listing) (ceAlreadyCount cfg listing))
             (ceSelection cfg listing)) := by
  simp only [changeExtensions, hscan]
  rw [if_neg (by simp [hmk]), if_neg (by simp [hne]), if_neg (by simp [hconf])]

theorem ceConsider_symCount (listing : List DirEntry) :
    (ceConsider listing).countP (·.isSymlink) = listing.countP (·.isSymlink) := by
  unfold ceConsider
  rw [(List.perm_insertionSort _ _).countP_eq, List.countP_filter]
  refine List.countP_congr (fun f _ => ?_)
  cases hs : f.isSymlink <;> simp [hs]

theorem ceClassify_sublist (ne : String) (fe : Option (List String)) :
    ∀ l : List DirEntry, List.Sublist (ceClassify ne fe l).1 l
  | [] => List.Sublist.refl []
  | f :: rest => by
    have ih := ceClassify_sublist ne fe rest
    unfold ceClassify
    rcases hs : f.isSymlink
    · by_cases hd : lowerS (pySuffix f.name) = lowerS ne
      · simpa [hs, hd] using ih.cons f
      · by_cases hp : ceExtPred fe (lowerS (pySuffix f.name)) = true
        · simpa [hs, hd, hp] using ih.cons₂ f
        · simpa [hs, hd, hp] using ih.cons f
    · simpa [hs] using ih.cons f

theorem ceSelection_subset {cfg : ChangeExtConfig} {listing : List DirEntry}
    {f : DirEntry} (h : f ∈ ceSelection cfg listing) : f ∈ listing :=
  (mem_ceConsider_iff.mp ((ceClassify_mem _ _ _ f).mp h).1).1

theorem ceSelection_names_nodup {cfg : ChangeExtConfig}
    {listing : List DirEntry} (h : (listing.map DirEntry.name).Nodup) :
    ((ceSelection cfg listing).map DirEntry.name).Nodup := by
  have h1 : ((listing.filter (fun f => f.isFile || f.isSymlink)).map
      DirEntry.name).Nodup :=
    h.sublist ((List.filter_sublist listing).map DirEntry.name)
  have h2 : ((ceConsider listing).map DirEntry.name).Nodup :=
    (((List.perm_insertionSort _ _).map DirEntry.name).nodup_iff).mpr h1
  exact h2.sublist ((ceClassify_sublist cfg.newExtension cfg.fromExtensions
    (ceConsider listing)).map DirEntry.name)

theorem renameFiles_dry_fs (cfg : RenameConfig) (w : World) (yes force : Bool)
    (n : Nat) (s' : RState)
    (hres : renameFiles cfg w true yes force = Except.ok (n, s')) :
    s'.fs = w.fs := by
  cases hscan : w.scan with
  | error e =>
    rw [renameFiles_scan_error cfg w true yes force e hscan] at hres
    simp only [Except.ok.injEq, Prod.mk.injEq] at hres
    rw [← hres.2]
    rfl
  | ok listing =>
    by_cases hemp : (renameSelection cfg listing).isEmpty = true
    · rw [renameFiles_empty cfg w true yes force listing hscan hemp] at hres
      simp only [Except.ok.injEq, Prod.mk.injEq] at hres
      rw [← hres.2]
      rfl
    · rw [renameFiles_run cfg w true yes force listing hscan
        (by simpa using hemp) (by simp)] at hres
      simp only [Except.ok.injEq, Prod.mk.injEq] at hres
      rw [← hres.2]
      exact (processFold_dry_inv cfg.folder cfg.fmt cfg.outputDir.isSome
        (rTargetDir cfg) (rTargetOk cfg w) force
        (renameSelection cfg listing)
        (rInit w.fs cfg.start (renameSymCount cfg listing))).1

theorem changeExtensions_dry_fs (cfg : ChangeExtConfig) (w : World)
    (yes force : Bool) (n : Nat) (s' : CState)
    (hres : changeExtensions cfg w true yes force = Except.ok (n, s')) :
    s'.fs = w.fs := by
  by_cases hmk : ceMkdirFailed cfg w = true
  · rw [changeExtensions_mkdir_failed cfg w true yes force hmk] at hres
    simp only [Except.ok.injEq, Prod.mk.injEq] at hres
    rw [← hres.2]
    rfl
  · cases hscan : w.scan with
    | error e =>
      rw [changeExtensions_scan_error cfg w true yes force e
        (by simpa using hmk) hscan] at hres
      exact absurd hres (by simp)
    | ok listing =>
      by_cases hemp : (ceSelection cfg listing).isEmpty = true
      · rw [changeExtensions_empty cfg w true yes force listing
          (by simpa using hmk) hscan hemp] at hres
        simp only [Except.ok.injEq, Prod.mk.injEq] at hres
        rw [← hres.2]
        rfl
      · rw [changeExtensions_run cfg w true yes force listing
          (by simpa using hmk) hscan (by simpa using hemp) (by simp)] at hres
        simp only [Except.ok.injEq, Prod.mk.injEq] at hres
        rw [← hres.2]
        exact ceFold_dry_inv cfg.folder cfg.newExtension cfg.outputDir.isSome
          (cfg.outputDir.getD cfg.folder) true force (ceSelection cfg listing)
          (ceInit w.fs (ceSymCount cfg listing) (ceAlreadyCount cfg listing))

/-! ## Claim C8 -/

/-- C8: in extension-change mode, a file's suffix is matched against the
from-extension filter case-insensitively (the selection predicate compares
lowercased suffixes against the lowercased, normalised filter), and every
file whose suffix already equals the target extension case-insensitively
is excluded from the candidate list before conflict resolution and counted
in the already-matching bucket. -/
theorem c8_case_insensitive_selection (cfg : ChangeExtConfig)
    (listing : List DirEntry) (f : DirEntry) (hf : f ∈ listing)
    (hfile : f.isFile = true) (hsym : f.isSymlink = false) :
    (f ∈ ceSelection cfg listing ↔
      lowerS (pySuffix f.name) ≠ lowerS cfg.newExtension ∧
      ceExtPred cfg.fromExtensions (lowerS (pySuffix f.name)) = true) ∧
    (lowerS (pySuffix f.name) = lowerS cfg.newExtension →
      f ∉ ceSelection cfg listing ∧ 1 ≤ ceAlreadyCount cfg listing) := by
  have hcons : f ∈ ceConsider listing :=
    mem_ceConsider_iff.mpr ⟨hf, by simp [hfile]⟩
  have hmem := ceClassify_mem cfg.newExtension cfg.fromExtensions
    (ceConsider listing) f
  constructor
  · constructor
    · intro h
      exact ⟨(hmem.mp h).2.2.1, (hmem.mp h).2.2.2⟩
    · intro h
      exact hmem.mpr ⟨hcons, hsym, h.1, h.2⟩
  · intro heq
    constructor
    · intro h
      exact absurd heq (hmem.mp h).2.2.1
    · unfold ceAlreadyCount
      rw [ceClassify_already]
      exact List.countP_pos_iff.mpr ⟨f, hcons, by simp [hsym, heq]⟩

/-- Concrete configuration for the C8 witness. -/
def c8cfg : ChangeExtConfig :=
  { folder := "d", newExtension := ".jpg", fromExtensions := some [".png"] }

/-- Concrete listing for the C8 witness. -/
def c8listing : List DirEntry :=
  [⟨"a.JPG", true, false⟩, ⟨"b.png", true, false⟩]

/-- C8 witness: the scenario of the spec, `a.JPG` with target `.jpg`:
selected out as already matching; `b.png` passes a `.png` filter. -/
theorem c8_case_insensitive_selection_witness :
    (⟨"a.JPG", true, false⟩ : DirEntry) ∈ c8listing ∧
    lowerS (pySuffix "a.JPG") = lowerS ".jpg" ∧
    ((⟨"a.JPG", true, false⟩ : DirEntry) ∉ ceSelection c8cfg c8listing ∧
      1 ≤ ceAlreadyCount c8cfg c8listing) :=
  ⟨by decide, by decide,
    (c8_case_insensitive_selection c8cfg c8listing
      ⟨"a.JPG", true, false⟩ (by decide) rfl rfl).2 (by decide)⟩

/-! ## Claim C10 -/

/-- C10: in `change_extensions` the already-has-target-extension exclusion
runs before the from-extensions filter: a file whose suffix equals the
target extension case-insensitively is excluded from the candidates and
counted as already matching even when its suffix is not a member of the
from-extensions filter. -/
theorem c10_already_done_before_filter (cfg : ChangeExtConfig)
    (listing : List DirEntry) (f : DirEntry) (hf : f ∈ listing)
    (hfile : f.isFile = true) (hsym : f.isSymlink = false)
    (heq : lowerS (pySuffix f.name) = lowerS cfg.newExtension)
    (hnotin : ceExtPred cfg.fromExtensions (lowerS (pySuffix f.name)) = false) :
    f ∉ ceSelection cfg listing ∧ 1 ≤ ceAlreadyCount cfg listing := by
  have hcons : f ∈ ceConsider listing :=
    mem_ceConsider_iff.mpr ⟨hf, by simp [hfile]⟩
  constructor
  · intro h
    exact absurd heq ((ceClassify_mem _ _ _ f).mp h).2.2.1
  · unfold ceAlreadyCount
    rw [ceClassify_already]
    exact List.countP_pos_iff.mpr ⟨f, hcons, by simp [hsym, heq]⟩

/-- Concrete configuration for the C10 witness. -/
def c10cfg : ChangeExtConfig :=
  { folder := "d", newExtension := ".jpg", fromExtensions := some [".png"] }

/-- Concrete listing for the C10 witness. -/
def c10listing : List DirEntry := [⟨"a.JPG", true, false⟩]

/-- C10 witness: `a.JPG` with target `.jpg` and filter `[".png"]`: its
suffix is not in the filter, yet it is counted as already matching and
excluded from the candidates. -/
theorem c10_already_done_before_filter_witness :
    (⟨"a.JPG", true, false⟩ : DirEntry) ∈ c10listing ∧
    lowerS (pySuffix "a.JPG") = lowerS c10cfg.newExtension ∧
    ceExtPred c10cfg.fromExtensions (lowerS (pySuffix "a.JPG")) = false ∧
    ((⟨"a.JPG", true, false⟩ : DirEntry) ∉ ceSelection c10cfg c10listing ∧
      1 ≤ ceAlreadyCount c10cfg c10listing) :=
  ⟨by decide, by decide, by decide,
    c10_already_done_before_filter c10cfg c10listing
      ⟨"a.JPG", true, false⟩ (by decide) rfl rfl (by decide) (by decide)⟩

/-! ## Claim C7 -/

/-- Concrete counterexample input for C7: a symlink that does not match
the extension filter. -/
def c7listing : List DirEntry := [⟨"a.txt", true, false⟩, ⟨"s.jpg", true, true⟩]

/-- World for the C7 counterexample. -/
def c7w : World := ⟨[⟨"d", "a.txt"⟩], Except.ok c7listing, false, false, true⟩

/-- Rename configuration with a `.txt` extension filter for the C7
counterexample. -/
def c7cfg : RenameConfig :=
  { folder := "d", fmt := fun i => some ("f_" ++ toString i),
    extensions := some [".txt"] }

/-- C7 counterexample: the directory holds a symlink `s.jpg`, but under the
`.txt` extension filter the rename run counts zero skipped symlinks — the
symlink is silently dropped by the filter, contradicting the claim that
every symlink child is counted in the symlinks-skipped bucket regardless
of filters. -/
theorem c7_filtered_symlink_uncounted_cex :
    (⟨"s.jpg", true, true⟩ : DirEntry) ∈ c7listing ∧
    (⟨"s.jpg", true, true⟩ : DirEntry).isSymlink = true ∧
    (stateOf (renameFiles c7cfg c7w false true false)).map
      (fun s => s.symlinksSkipped) = some 0 ∧
    retOf (renameFiles c7cfg c7w false true false) = some 1 :=
  ⟨by decide, rfl, rfl, rfl⟩

/-- C7 (amended): in both modes symbolic links are excluded from the
candidate list (hence from mutation); in extension-change mode every
symlink child is counted in the symlinks-skipped bucket; in rename mode
only symlinks that pass the extension and prefix filters are counted —
symlinks rejected by a filter are dropped without being counted. -/
theorem c7_symlink_amended (cfgR : RenameConfig) (cfgC : ChangeExtConfig)
    (listing : List DirEntry) :
    (∀ f ∈ renameSelection cfgR listing, f.isSymlink = false) ∧
    (∀ f ∈ ceSelection cfgC listing, f.isSymlink = false) ∧
    ceSymCount cfgC listing = listing.countP (·.isSymlink) ∧
    renameSymCount cfgR listing =
      listing.countP (fun f => f.isSymlink &&
        (renameExtPred cfgR.extensions (pySuffix f.name) &&
         namePrefixPred cfgR.pf f.name)) := by
  refine ⟨?_, ?_, ?_, ?_⟩
  · intro f hf
    exact renameSelection_no_symlink hf
  · intro f hf
    exact ((ceClassify_mem _ _ _ f).mp hf).2.1
  · unfold ceSymCount
    rw [ceClassify_sym, ceConsider_symCount]
  · exact rename_symCount_eq listing cfgR.extensions cfgR.pf

/-- C7 amended witness: on the counterexample listing, the rename run under
the `.txt` filter counts zero symlinks while the extension-change session
counts one. -/
theorem c7_symlink_amended_witness :
    (∀ f ∈ renameSelection c7cfg c7listing, f.isSymlink = false) ∧
    (∀ f ∈ ceSelection { folder := "d", newExtension := ".md" } c7listing,
      f.isSymlink = false) ∧
    ceSymCount { folder := "d", newExtension := ".md" } c7listing =
      c7listing.countP (·.isSymlink) ∧
    renameSymCount c7cfg c7listing =
      c7listing.countP (fun f => f.isSymlink &&
        (renameExtPred c7cfg.extensions (pySuffix f.name) &&
         namePrefixPred c7cfg.pf f.name)) :=
  c7_symlink_amended c7cfg { folder := "d", newExtension := ".md" } c7listing

/-! ## Claim C9 -/

/-- C9: if a configured output directory does not exist and cannot be
created, `change_extensions` returns 0 with the filesystem untouched and
no per-file processing, whereas `rename_files` (whose creation failure is
only reported, its target directory staying unusable) still proceeds into
selection, confirmation, and per-file processing — every selected file is
processed and receives a trace event. -/
theorem c9_output_dir_failure_divergence
    (cfgR : RenameConfig) (cfgC : ChangeExtConfig) (w wC : World)
    (dR yR fR dC yC fC : Bool) (dirR dirC : String) (listing : List DirEntry)
    (nR : Nat) (sR : RState)
    (hoR : cfgR.outputDir = some dirR)
    (hex : w.outputDirExists = false) (hmk : w.mkdirOk = false)
    (hoC : cfgC.outputDir = some dirC)
    (hexC : wC.outputDirExists = false) (hmkC : wC.mkdirOk = false)
    (hscan : w.scan = Except.ok listing)
    (hne : (renameSelection cfgR listing).isEmpty = false)
    (hconf : (!dR && !yR && !w.confirmAnswer) = false)
    (hrun : renameFiles cfgR w dR yR fR = Except.ok (nR, sR)) :
    changeExtensions cfgC wC dC yC fC = Except.ok (0, ceInit wC.fs 0 0) ∧
    rTargetOk cfgR w = false ∧
    sR.trace.length = (renameSelection cfgR listing).length := by
  refine ⟨?_, ?_, ?_⟩
  · exact changeExtensions_mkdir_failed cfgC wC dC yC fC
      (by unfold ceMkdirFailed; rw [hoC]; simp [hexC, hmkC])
  · unfold rTargetOk
    rw [hoR]
    simp [hex, hmk]
  · rw [renameFiles_run cfgR w dR yR fR listing hscan hne hconf] at hrun
    simp only [Except.ok.injEq, Prod.mk.injEq] at hrun
    rw [← hrun.2]
    rw [processFold_trace_len]
    simp [rInit]

/-- Rename configuration with an output directory for the C9 witness. -/
def c9cfgR : RenameConfig :=
  { folder := "d", fmt := fun i => some ("f_" ++ toString i),
    outputDir := some "out" }

/-- World for the C9 witness (rename side): output dir missing, mkdir
fails. -/
def c9w : World :=
  ⟨[⟨"d", "a.txt"⟩], Except.ok [⟨"a.txt", true, false⟩], false, false, true⟩

/-- Extension-change configuration with an output directory for the C9
witness. -/
def c9cfgC : ChangeExtConfig :=
  { folder := "d", newExtension := ".md", outputDir := some "out" }

/-- The final state of the C9 witness rename run. -/
def c9state : RState :=
  ⟨[⟨"d", "a.txt"⟩], 2, 0, 0, 0, 1, 0,
    [REvent.moveError ⟨"d", "a.txt"⟩ ⟨"out", "f_1.txt"⟩]⟩

/-- C9 witness: with the output directory missing and uncreatable,
`change_extensions` returns 0 untouched while `rename_files` still
processes its one candidate (one trace event, an error-skip). -/
theorem c9_output_dir_failure_divergence_witness :
    renameFiles c9cfgR c9w false true false = Except.ok (0, c9state) ∧
    (changeExtensions c9cfgC c9w false true false =
        Except.ok (0, ceInit c9w.fs 0 0) ∧
      rTargetOk c9cfgR c9w = false ∧
      c9state.trace.length =
        (renameSelection c9cfgR [⟨"a.txt", true, false⟩]).length) :=
  ⟨rfl,
    c9_output_dir_failure_divergence c9cfgR c9cfgC c9w c9w false true false
      false true false "out" "out" [⟨"a.txt", true, false⟩] 0 c9state
      rfl rfl rfl rfl rfl rfl rfl (by decide) (by decide) rfl⟩

/-! ## Claim C5 -/

/-- C5 counterexample inputs: an empty rename pattern, which
`RenameConfig` accepts without any validation failure.  (`"".format(i=n)`
is `""` for every `n`, so the pattern function is `fun _ => some ""`.) -/
def c5cfg : RenameConfig :=
  (mkRenameConfig true true "d" (fun _ => some "") none none 1 none).toOption.getD
    { folder := "", fmt := fun _ => none }

/-- World for the C5 counterexample. -/
def c5w : World :=
  ⟨[⟨"d", "a.txt"⟩], Except.ok [⟨"a.txt", true, false⟩], false, false, true⟩

/-- C5 counterexample: constructing a `RenameConfig` with an empty pattern
succeeds (no validation failure is raised), and running it mutates the
filesystem — `a.txt` is renamed to `.txt`.  This contradicts the claim
that an empty mode-specific parameter always raises a validation failure
before any mutation. -/
theorem c5_empty_pattern_accepted_cex :
    cfgOk (mkRenameConfig true true "d" (fun _ => some "") none none 1 none) =
      true ∧
    retOf (renameFiles c5cfg c5w false true false) = some 1 ∧
    (stateOf (renameFiles c5cfg c5w false true false)).map (fun s => s.fs) =
      some [⟨"d", ".txt"⟩] :=
  ⟨rfl, rfl, rfl⟩

/-- C5 (amended): both constructors raise a validation failure when the
source directory does not exist or is not a directory;
`ChangeExtConfig` additionally rejects an empty or whitespace-only new
extension, and `RenameConfig` rejects a start index below 1.  The rename
pattern itself is not validated at construction time (empty or malformed
patterns surface later as per-file behaviour, not as a validation
failure). -/
theorem c5_validation_amended (fe fd : Bool) (folder : String)
    (fmt : Nat → Option String) (extensions : Option (List String))
    (pf : Option String) (start : Int) (outputDir : Option String)
    (ne : String) (fromExt : Option (List String)) (outD : Option String) :
    (fe = false ∨ fd = false →
      cfgOk (mkRenameConfig fe fd folder fmt extensions pf start outputDir) =
        false ∧
      cfgOk (mkChangeExtConfig fe fd folder ne fromExt outD) = false) ∧
    (trimS ne = "" →
      cfgOk (mkChangeExtConfig true true folder ne fromExt outD) = false) ∧
    (start < 1 →
      cfgOk (mkRenameConfig true true folder fmt extensions pf start outputDir) =
        false) := by
  refine ⟨?_, ?_, ?_⟩
  · intro h
    have hdir : ensure_directory fe fd folder =
        .error (folder ++ " is not a valid directory.") := by
      unfold ensure_directory
      rcases h with h | h <;> simp [h]
    constructor
    · unfold mkRenameConfig
      rw [hdir]
      rfl
    · unfold mkChangeExtConfig
      rw [hdir]
      rfl
  · intro h
    unfold mkChangeExtConfig
    have hdir : ensure_directory true true folder = .ok folder := rfl
    rw [hdir]
    unfold validate_and_normalize_new_extension
    rw [h]
    rfl
  · intro h
    unfold mkRenameConfig
    have hdir : ensure_directory true true folder = .ok folder := rfl
    rw [hdir]
    simp only
    rw [if_pos h]
    rfl

/-- C5 amended witness: a missing directory, a whitespace-only new
extension and a zero start index are all rejected. -/
theorem c5_validation_amended_witness :
    (false = false ∨ true = false →
      cfgOk (mkRenameConfig false true "d" (fun _ => some "p") none none 0 none) =
        false ∧
      cfgOk (mkChangeExtConfig false true "d" " " none none) = false) ∧
    (trimS " " = "" →
      cfgOk (mkChangeExtConfig true true "d" " " none none) = false) ∧
    ((0 : Int) < 1 →
      cfgOk (mkRenameConfig true true "d" (fun _ => some "p") none none 0 none) =
        false) :=
  c5_validation_amended false true "d" (fun _ => some "p") none none 0 none
    " " none none

/-! ## Claim C6 -/

/-- World for the C6 counterexample: the directory scan raises
`FileNotFoundError`. -/
def c6w : World :=
  ⟨[⟨"d", "a.txt"⟩], Except.error ScanErr.notFound, false, false, true⟩

/-- Rename configuration for the C6 counterexample. -/
def c6cfg : RenameConfig :=
  { folder := "d", fmt := fun i => some ("f_" ++ toString i) }

/-- C6 counterexample: when the scan raises, `rename_files` catches the
error and returns 0 normally; no exception reaches the caller,
contradicting the claim that the selection error propagates. -/
theorem c6_scan_error_not_propagated_cex :
    raisedOf (renameFiles c6cfg c6w false true false) = none ∧
    retOf (renameFiles c6cfg c6w false true false) = some 0 ∧
    (stateOf (renameFiles c6cfg c6w false true false)).map (fun s => s.fs) =
      some c6w.fs :=
  ⟨rfl, rfl, rfl⟩

/-- C6 (amended): a scan error halts the session before any filesystem
mutation in both operations; `rename_files` catches it, reports it, and
returns 0 to its caller instead of propagating, while `change_extensions`
(which has no handler around its scan) propagates the exception. -/
theorem c6_selection_error_amended (cfg : RenameConfig) (w : World)
    (dry yes force : Bool) (e : ScanErr) (hscan : w.scan = Except.error e)
    (cfgC : ChangeExtConfig) (wC : World) (dryC yesC forceC : Bool)
    (eC : ScanErr) (hmkC : ceMkdirFailed cfgC wC = false)
    (hscanC : wC.scan = Except.error eC) :
    renameFiles cfg w dry yes force = Except.ok (0, rInit w.fs cfg.start 0) ∧
    changeExtensions cfgC wC dryC yesC forceC = Except.error eC :=
  ⟨renameFiles_scan_error cfg w dry yes force e hscan,
   changeExtensions_scan_error cfgC wC dryC yesC forceC eC hmkC hscanC⟩

/-- C6 amended witness. -/
theorem c6_selection_error_amended_witness :
    renameFiles c6cfg c6w false true false =
      Except.ok (0, rInit c6w.fs c6cfg.start 0) ∧
    changeExtensions { folder := "d", newExtension := ".md" } c6w false true
        false =
      Except.error ScanErr.notFound :=
  c6_selection_error_amended c6cfg c6w false true false ScanErr.notFound rfl
    { folder := "d", newExtension := ".md" } c6w false true false
    ScanErr.notFound rfl rfl

/-! ## Claim C2 -/

/-- Paths for the C2 counterexample: exactly the ten names
`file_1.txt` … `file_10.txt` conflict, plus the candidate `a.txt`. -/
def c2fs : List FPath :=
  (List.range 10).map (fun k => ⟨"d", "file_" ++ toString (k + 1) ++ ".txt"⟩) ++
    [⟨"d", "a.txt"⟩]

/-- Listing for the C2 counterexample. -/
def c2listing : List DirEntry :=
  (List.range 10).map
    (fun k => ⟨"file_" ++ toString (k + 1) ++ ".txt", true, false⟩) ++
    [⟨"a.txt", true, false⟩]

/-- World for the C2 counterexample. -/
def c2w : World := ⟨c2fs, Except.ok c2listing, false, false, true⟩

/-- Rename configuration for the C2 counterexample; the prefix filter
keeps only `a.txt` as a candidate. -/
def c2cfg : RenameConfig :=
  { folder := "d", fmt := fun i => some ("file_" ++ toString i),
    pf := some "a" }

/-- C2 counterexample: the ten target names `file_1.txt` … `file_10.txt`
all conflict.  Under the claim's bound of 10 attempts including the first,
every tried name conflicts, so the outcome would be `exhausted` with one
conflict-skip and no mutation; the code instead tries an eleventh name and
renames `a.txt` to `file_11.txt`. -/
theorem c2_eleventh_attempt_succeeds_cex :
    retOf (renameFiles c2cfg c2w false true false) = some 1 ∧
    (stateOf (renameFiles c2cfg c2w false true false)).map
      (fun s => (s.skippedConflicts, s.renamedCount)) = some (0, 1) ∧
    (stateOf (renameFiles c2cfg c2w false true false)).map
      (fun s => decide ((⟨"d", "file_11.txt"⟩ : FPath) ∈ s.fs)) = some true :=
  ⟨rfl, rfl, rfl⟩

/-- C2 (amended): the conflict search is bounded by 10 index advances —
up to 11 candidate names are probed including the first.  If the candidate
paths at every index from the cursor through cursor + 10 all exist (and
are not the file itself), the loop body skips the file as a conflict:
exactly one conflict-skip is counted, the filesystem is untouched (and the
cursor moves by one, see C4). -/
theorem c2_bounded_search_amended
    (fs : List FPath) (td0 : String) (sp : FPath) (suf : String)
    (fmt : Nat → Option String) (force : Bool) (res : Nat) (cur : FPath)
    (folder td : String) (g : Nat → String) (ods tok dry : Bool)
    (s : RState) (f : DirEntry)
    (hconf : ∀ k, k ≤ 10 →
      (⟨td, g (s.cursor + k) ++ pySuffix f.name⟩ : FPath) ∈ s.fs ∧
      (⟨td, g (s.cursor + k) ++ pySuffix f.name⟩ : FPath) ≠ ⟨folder, f.name⟩) :
    ((conflictLoop fs td0 sp suf fmt force 10 res cur).2.2 ≤ 10 ∧
     (conflictLoop fs td0 sp suf fmt force 10 res cur).2.1 ≤ res + 10) ∧
    processOne folder (fun i => some (g i)) ods td tok dry false s f =
      { s with skippedConflicts := s.skippedConflicts + 1,
               cursor := s.cursor + 1,
               trace := s.trace ++ [REvent.conflictSkip ⟨folder, f.name⟩
                 ⟨td, g (s.cursor + 10) ++ pySuffix f.name⟩] } :=
  ⟨⟨conflictLoop_attempt_le fs td0 sp suf fmt force 10 res cur,
    conflictLoop_resolved_le fs td0 sp suf fmt force 10 res cur⟩,
   processOne_exhausted folder ods td tok dry g s f hconf⟩

/-- Session state for the C2 witness: the constant pattern `x` against an
existing `x.txt` makes every probe conflict. -/
def c2s : RState := rInit [⟨"d", "x.txt"⟩, ⟨"d", "pa.txt"⟩] 1 0

/-- C2 amended witness: attempt/advance bounds at a concrete loop call,
and the exhausted outcome on `pa.txt` under the constant pattern. -/
theorem c2_bounded_search_amended_witness :
    ((conflictLoop [] "d" ⟨"d", "s"⟩ ".txt" (fun _ => none) false 10 1
        ⟨"d", "q.txt"⟩).2.2 ≤ 10 ∧
     (conflictLoop [] "d" ⟨"d", "s"⟩ ".txt" (fun _ => none) false 10 1
        ⟨"d", "q.txt"⟩).2.1 ≤ 1 + 10) ∧
    processOne "d" (fun _ => some "x") false "d" true false false c2s
        ⟨"pa.txt", true, false⟩ =
      ⟨[⟨"d", "x.txt"⟩, ⟨"d", "pa.txt"⟩], 2, 0, 0, 1, 0, 0,
        [REvent.conflictSkip ⟨"d", "pa.txt"⟩ ⟨"d", "x.txt"⟩]⟩ :=
  c2_bounded_search_amended [] "d" ⟨"d", "s"⟩ ".txt" (fun _ => none) false 1
    ⟨"d", "q.txt"⟩ "d" "d" (fun _ => "x") false true false c2s
    ⟨"pa.txt", true, false⟩ (fun k _ => by
      constructor
      · show (⟨"d", "x" ++ pySuffix "pa.txt"⟩ : FPath) ∈ c2s.fs
        decide
      · show (⟨"d", "x" ++ pySuffix "pa.txt"⟩ : FPath) ≠ ⟨"d", "pa.txt"⟩
        decide)

/-! ## Claim C4 -/

/-- Paths for the C4 counterexample. -/
def c4fs : List FPath := [⟨"d", "pa.txt"⟩, ⟨"d", "pb.txt"⟩, ⟨"d", "x.txt"⟩]

/-- Listing for the C4 counterexample. -/
def c4listing : List DirEntry :=
  [⟨"pa.txt", true, false⟩, ⟨"pb.txt", true, false⟩, ⟨"x.txt", true, false⟩]

/-- World for the C4 counterexample. -/
def c4w : World := ⟨c4fs, Except.ok c4listing, false, false, true⟩

/-- Rename configuration for the C4 counterexample: constant pattern `x`,
prefix filter `p` selects `pa.txt` and `pb.txt`. -/
def c4cfg : RenameConfig :=
  { folder := "d", fmt := fun _ => some "x", pf := some "p" }

/-- C4 counterexample: both candidates are skipped purely because of an
overwrite-disabled conflict with `x.txt`, yet the cursor ends at 3 — it
advanced past both attempted values (the claim requires it to stay at 1),
with no index ever consumed by a write. -/
theorem c4_cursor_advances_on_conflict_cex :
    (stateOf (renameFiles c4cfg c4w false true false)).map
      (fun s => (s.cursor, s.skippedConflicts, s.renamedCount)) =
      some (3, 2, 0) ∧
    (stateOf (renameFiles c4cfg c4w false true false)).map (fun s => s.trace) =
      some [REvent.conflictSkip ⟨"d", "pa.txt"⟩ ⟨"d", "x.txt"⟩,
        REvent.conflictSkip ⟨"d", "pb.txt"⟩ ⟨"d", "x.txt"⟩] :=
  ⟨by decide, by decide⟩

/-- C4 (amended): a step recorded as a post-search conflict skip advances
the cursor by exactly one (it does not stay at the attempted value) and
leaves the filesystem untouched; a format failure inside the conflict
search does not advance the cursor at all; and across one run the indices
consumed by successful writes or previews are strictly increasing, so the
same index is never issued to two different candidates. -/
theorem c4_cursor_amended (folder : String) (fmt : Nat → Option String)
    (ods : Bool) (td : String) (tok dry force : Bool) (l : List DirEntry)
    (fs0 : List FPath) (start sym : Nat) (s s2 : RState) (f f2 : DirEntry)
    (src src2 tgt : FPath) :
    ((processOne folder fmt ods td tok dry force s f).trace =
        s.trace ++ [REvent.conflictSkip src tgt] →
      (processOne folder fmt ods td tok dry force s f).cursor = s.cursor + 1 ∧
      (processOne folder fmt ods td tok dry force s f).fs = s.fs) ∧
    ((processOne folder fmt ods td tok dry force s2 f2).trace =
        s2.trace ++ [REvent.fmtErrorLoop src2] →
      (processOne folder fmt ods td tok dry force s2 f2).cursor = s2.cursor ∧
      (processOne folder fmt ods td tok dry force s2 f2).fs = s2.fs) ∧
    ((processFold folder fmt ods td tok dry force (rInit fs0 start sym)
        l).trace.filterMap consumedIdx).Pairwise (· < ·) :=
  ⟨fun h => processOne_conflictSkip_cursor folder fmt ods td tok dry force h,
   fun h => processOne_fmtErrLoop_cursor folder fmt ods td tok dry force h,
   (processFold_consumed folder fmt ods td tok dry force l
     (rInit fs0 start sym) (by simp [rInit]) (by simp [rInit])).1⟩

/-- Pattern for the C4 witness: defined through index 11, failing
afterwards, so that a cursor at 11 hits a format failure inside the
conflict search. -/
def c4fmt : Nat → Option String := fun i => if i ≤ 11 then some "x" else none

/-- Session state for the C4 witness (cursor at 1). -/
def c4s : RState := rInit [⟨"d", "x.txt"⟩, ⟨"d", "pa.txt"⟩] 1 0

/-- Session state for the C4 witness (cursor at 11). -/
def c4s2 : RState := rInit [⟨"d", "x.txt"⟩, ⟨"d", "pa.txt"⟩] 11 0

/-- C4 amended witness: at cursor 1 the exhausted conflict advances the
cursor to 2; at cursor 11 the format failure inside the search leaves the
cursor at 11; and a two-file straight-line fold consumes strictly
increasing indices. -/
theorem c4_cursor_amended_witness :
    ((processOne "d" c4fmt false "d" true false false c4s
        ⟨"pa.txt", true, false⟩).trace =
        c4s.trace ++ [REvent.conflictSkip ⟨"d", "pa.txt"⟩ ⟨"d", "x.txt"⟩] →
      (processOne "d" c4fmt false "d" true false false c4s
        ⟨"pa.txt", true, false⟩).cursor = c4s.cursor + 1 ∧
      (processOne "d" c4fmt false "d" true false false c4s
        ⟨"pa.txt", true, false⟩).fs = c4s.fs) ∧
    ((processOne "d" c4fmt false "d" true false false c4s2
        ⟨"pa.txt", true, false⟩).trace =
        c4s2.trace ++ [REvent.fmtErrorLoop ⟨"d", "pa.txt"⟩] →
      (processOne "d" c4fmt false "d" true false false c4s2
        ⟨"pa.txt", true, false⟩).cursor = c4s2.cursor ∧
      (processOne "d" c4fmt false "d" true false false c4s2
        ⟨"pa.txt", true, false⟩).fs = c4s2.fs) ∧
    ((processFold "d" c4fmt false "d" true false false
        (rInit [⟨"d", "x.txt"⟩, ⟨"d", "pa.txt"⟩] 1 0)
        [⟨"pa.txt", true, false⟩]).trace.filterMap consumedIdx).Pairwise
      (· < ·) :=
  c4_cursor_amended "d" c4fmt false "d" true false false
    [⟨"pa.txt", true, false⟩] [⟨"d", "x.txt"⟩, ⟨"d", "pa.txt"⟩] 1 0 c4s c4s2
    ⟨"pa.txt", true, false⟩ ⟨"pa.txt", true, false⟩ ⟨"d", "pa.txt"⟩
    ⟨"d", "pa.txt"⟩ ⟨"d", "x.txt"⟩

/-! ## Claim C1 -/

theorem changeExtensions_declined (cfg : ChangeExtConfig) (w : World)
    (dry yes force : Bool) (listing : List DirEntry)
    (hmk : ceMkdirFailed cfg w = false) (hscan : w.scan = Except.ok listing)
    (hconf : (!dry && !yes && !w.confirmAnswer) = true) :
    changeExtensions cfg w dry yes force =
      .ok (0, ceInit w.fs (ceSymCount cfg listing) (ceAlreadyCount cfg listing)) := by
  simp only [changeExtensions, hscan]
  rw [if_neg (by simp [hmk])]
  split
  · rfl
  · simp [hconf]

/-- C1: for every non-overwrite run (force = false) of either operation,
a file is renamed or retargeted only if the resolved target path did not
exist at resolution time (every `renamed`/`changed` event in the trace has
a fresh target, or targets the file's own current path), and the original
file is never lost: after the session each selected file either still
exists at its original path or was renamed onto a target path that still
exists at the end. -/
theorem c1_no_silent_clobber
    (cfgR : RenameConfig) (cfgC : ChangeExtConfig) (wR wC : World)
    (dryR dryC yesR yesC : Bool) (listingR listingC : List DirEntry)
    (nR nC : Nat) (sR : RState) (sC : CState)
    (hscanR : wR.scan = Except.ok listingR)
    (hscanC : wC.scan = Except.ok listingC)
    (hconsR : ∀ g ∈ listingR, (⟨cfgR.folder, g.name⟩ : FPath) ∈ wR.fs)
    (hconsC : ∀ g ∈ listingC, (⟨cfgC.folder, g.name⟩ : FPath) ∈ wC.fs)
    (hnodR : (listingR.map DirEntry.name).Nodup)
    (hnodC : (listingC.map DirEntry.name).Nodup)
    (hrunR : renameFiles cfgR wR dryR yesR false = Except.ok (nR, sR))
    (hrunC : changeExtensions cfgC wC dryC yesC false = Except.ok (nC, sC)) :
    ((∀ f ∈ renameSelection cfgR listingR, rKeeps sR ⟨cfgR.folder, f.name⟩) ∧
     (∀ src tgt idx fr, REvent.renamed src tgt idx fr ∈ sR.trace →
       fr = true ∨ tgt = src)) ∧
    ((∀ f ∈ ceSelection cfgC listingC, cKeeps sC ⟨cfgC.folder, f.name⟩) ∧
     (∀ src tgt fr, CEvent.changed src tgt fr ∈ sC.trace →
       fr = true ∨ tgt = src)) := by
  constructor
  · have hsel : ∀ f ∈ renameSelection cfgR listingR,
        (⟨cfgR.folder, f.name⟩ : FPath) ∈ wR.fs :=
      fun f hf => hconsR f (renameSelection_subset hf)
    have hnod : ((renameSelection cfgR listingR).map DirEntry.name).Nodup :=
      renameSelection_names_nodup hnodR
    by_cases hemp : (renameSelection cfgR listingR).isEmpty = true
    · rw [renameFiles_empty cfgR wR dryR yesR false listingR hscanR hemp] at hrunR
      simp only [Except.ok.injEq, Prod.mk.injEq] at hrunR
      rw [← hrunR.2]
      exact ⟨fun f hf => Or.inl (hsel f hf),
        fun src tgt idx fr hmem => absurd hmem (by simp [rInit])⟩
    · by_cases hconf : (!dryR && !yesR && !wR.confirmAnswer) = true
      · rw [renameFiles_declined cfgR wR dryR yesR false listingR hscanR hconf]
          at hrunR
        simp only [Except.ok.injEq, Prod.mk.injEq] at hrunR
        rw [← hrunR.2]
        exact ⟨fun f hf => Or.inl (hsel f hf),
          fun src tgt idx fr hmem => absurd hmem (by simp [rInit])⟩
      · rw [renameFiles_run cfgR wR dryR yesR false listingR hscanR
          (by simpa using hemp) (by simpa using hconf)] at hrunR
        simp only [Except.ok.injEq, Prod.mk.injEq] at hrunR
        rw [← hrunR.2]
        constructor
        · intro f hf
          exact processFold_safety cfgR.folder cfgR.fmt cfgR.outputDir.isSome
            (rTargetDir cfgR) (rTargetOk cfgR wR) dryR
            (renameSelection cfgR listingR)
            (rInit wR.fs cfgR.start (renameSymCount cfgR listingR))
            hsel hnod f hf
        · exact processFold_fresh cfgR.folder cfgR.fmt cfgR.outputDir.isSome
            (rTargetDir cfgR) (rTargetOk cfgR wR) dryR
            (renameSelection cfgR listingR)
            (rInit wR.fs cfgR.start (renameSymCount cfgR listingR))
            (fun src tgt idx fr hmem => absurd hmem (by simp [rInit]))
  · have hsel : ∀ f ∈ ceSelection cfgC listingC,
        (⟨cfgC.folder, f.name⟩ : FPath) ∈ wC.fs :=
      fun f hf => hconsC f (ceSelection_subset hf)
    have hnod : ((ceSelection cfgC listingC).map DirEntry.name).Nodup :=
      ceSelection_names_nodup hnodC
    by_cases hmk : ceMkdirFailed cfgC wC = true
    · rw [changeExtensions_mkdir_failed cfgC wC dryC yesC false hmk] at hrunC
      simp only [Except.ok.injEq, Prod.mk.injEq] at hrunC
      rw [← hrunC.2]
      exact ⟨fun f hf => Or.inl (hsel f hf),
        fun src tgt fr hmem => absurd hmem (by simp [ceInit])⟩
    · by_cases hemp : (ceSelection cfgC listingC).isEmpty = true
      · rw [changeExtensions_empty cfgC wC dryC yesC false listingC
          (by simpa using hmk) hscanC hemp] at hrunC
        simp only [Except.ok.injEq, Prod.mk.injEq] at hrunC
        rw [← hrunC.2]
        exact ⟨fun f hf => Or.inl (hsel f hf),
          fun src tgt fr hmem => absurd hmem (by simp [ceInit])⟩
      · by_cases hconf : (!dryC && !yesC && !wC.confirmAnswer) = true
        · rw [changeExtensions_declined cfgC wC dryC yesC false listingC
            (by simpa using hmk) hscanC hconf] at hrunC
          simp only [Except.ok.injEq, Prod.mk.injEq] at hrunC
          rw [← hrunC.2]
          exact ⟨fun f hf => Or.inl (hsel f hf),
            fun src tgt fr hmem => absurd hmem (by simp [ceInit])⟩
        · rw [changeExtensions_run cfgC wC dryC yesC false listingC
            (by simpa using hmk) hscanC (by simpa using hemp)
            (by simpa using hconf)] at hrunC
          simp only [Except.ok.injEq, Prod.mk.injEq] at hrunC
          rw [← hrunC.2]
          constructor
          · intro f hf
            exact ceFold_safety cfgC.folder cfgC.newExtension
              cfgC.outputDir.isSome (cfgC.outputDir.getD cfgC.folder) true dryC
              (ceSelection cfgC listingC)
              (ceInit wC.fs (ceSymCount cfgC listingC)
                (ceAlreadyCount cfgC listingC))
              hsel hnod f hf
          · exact ceFold_fresh cfgC.folder cfgC.newExtension
              cfgC.outputDir.isSome (cfgC.outputDir.getD cfgC.folder) true dryC
              (ceSelection cfgC listingC)
              (ceInit wC.fs (ceSymCount cfgC listingC)
                (ceAlreadyCount cfgC listingC))
              (fun src tgt fr hmem => absurd hmem (by simp [ceInit]))

/-- Rename configuration for the C1 witness. -/
def c1cfgR : RenameConfig :=
  { folder := "d", fmt := fun i => some ("f_" ++ toString i) }

/-- World for the C1 witness (rename side). -/
def c1wR : World :=
  ⟨[⟨"d", "a.txt"⟩], Except.ok [⟨"a.txt", true, false⟩], false, false, true⟩

/-- Extension-change configuration for the C1 witness. -/
def c1cfgC : ChangeExtConfig := { folder := "d", newExtension := ".md" }

/-- World for the C1 witness (extension-change side). -/
def c1wC : World :=
  ⟨[⟨"d", "b.txt"⟩], Except.ok [⟨"b.txt", true, false⟩], false, false, true⟩

/-- Final state of the C1 witness rename run. -/
def c1sR : RState :=
  ⟨[⟨"d", "f_1.txt"⟩], 2, 1, 0, 0, 0, 0,
    [REvent.renamed ⟨"d", "a.txt"⟩ ⟨"d", "f_1.txt"⟩ 1 true]⟩

/-- Final state of the C1 witness extension-change run. -/
def c1sC : CState :=
  ⟨[⟨"d", "b.md"⟩], 1, 0, 0, 0, 0,
    [CEvent.changed ⟨"d", "b.txt"⟩ ⟨"d", "b.md"⟩ true]⟩

/-- C1 witness: one-file live runs of both operations; the renamed file
survives at its recorded target and every recorded event is fresh. -/
theorem c1_no_silent_clobber_witness :
    (renameFiles c1cfgR c1wR false true false = Except.ok (1, c1sR) ∧
     changeExtensions c1cfgC c1wC false true false = Except.ok (1, c1sC)) ∧
    (((∀ f ∈ renameSelection c1cfgR [⟨"a.txt", true, false⟩],
        rKeeps c1sR ⟨c1cfgR.folder, f.name⟩) ∧
      (∀ src tgt idx fr, REvent.renamed src tgt idx fr ∈ c1sR.trace →
        fr = true ∨ tgt = src)) ∧
     ((∀ f ∈ ceSelection c1cfgC [⟨"b.txt", true, false⟩],
        cKeeps c1sC ⟨c1cfgC.folder, f.name⟩) ∧
      (∀ src tgt fr, CEvent.changed src tgt fr ∈ c1sC.trace →
        fr = true ∨ tgt = src))) :=
  ⟨⟨rfl, rfl⟩,
    c1_no_silent_clobber c1cfgR c1cfgC c1wR c1wC false false true true
      [⟨"a.txt", true, false⟩] [⟨"b.txt", true, false⟩] 1 1 c1sR c1sC
      rfl rfl (by decide) (by decide) (by decide) (by decide) rfl rfl⟩

/-! ## Claim C3 -/

/-- Rename configuration for the C3 counterexample. -/
def c3cfg : RenameConfig :=
  { folder := "d", fmt := fun i => some ("file_" ++ toString i) }

/-- World for the C3 counterexample: the directory already contains
exactly `file_1.txt`. -/
def c3w : World :=
  ⟨[⟨"d", "file_1.txt"⟩], Except.ok [⟨"file_1.txt", true, false⟩], false,
    false, true⟩

/-- Rename configuration for the second C3 counterexample scenario: a
configured output directory. -/
def c3ocfg : RenameConfig :=
  { folder := "d", fmt := fun i => some ("f_" ++ toString i),
    outputDir := some "out" }

/-- World for the second C3 counterexample scenario: the output directory
does not exist and cannot be created. -/
def c3ow : World :=
  ⟨[⟨"d", "a.txt"⟩], Except.ok [⟨"a.txt", true, false⟩], false, false, true⟩

/-- C3 counterexample, two scenarios with no race in either.  First, a
directory containing only `file_1.txt` with pattern index 1: the dry run
previews 1 file, but the live run over the same initial state mutates 0
files (the pre-rename existence check raises `FileExistsError` because the
target is the file's own current name) — so the equality needs a
no-collision proviso.  Second, an uncreatable output directory with a
completely fresh target `out/f_1.txt`: the dry run previews 1 file while
the live run mutates 0 (`shutil.move` into the missing directory fails,
an error-skip) — so the equality also needs a usable-target-directory
proviso. -/
theorem c3_dry_live_mismatch_cex :
    (retOf (renameFiles c3cfg c3w true true false) = some 1 ∧
     retOf (renameFiles c3cfg c3w false true false) = some 0 ∧
     (stateOf (renameFiles c3cfg c3w false true false)).map
       (fun s => (s.skippedConflicts, s.trace)) =
       some (1, [REvent.raceSkip ⟨"d", "file_1.txt"⟩ ⟨"d", "file_1.txt"⟩])) ∧
    (retOf (renameFiles c3ocfg c3ow true true false) = some 1 ∧
     retOf (renameFiles c3ocfg c3ow false true false) = some 0 ∧
     (stateOf (renameFiles c3ocfg c3ow false true false)).map
       (fun s => (s.skippedErrors, s.trace)) =
       some (1, [REvent.moveError ⟨"d", "a.txt"⟩ ⟨"out", "f_1.txt"⟩]) ∧
     (⟨"out", "f_1.txt"⟩ : FPath) ∉ c3ow.fs) :=
  ⟨⟨rfl, rfl, rfl⟩, ⟨rfl, rfl, rfl, by decide⟩⟩

/-- C3 (amended): a dry run performs zero filesystem mutations, for every
configuration of either operation.  The dry-run preview count equals the
live-run mutation count whenever the target directory is usable (none
configured, or it exists or its creation succeeds — hypothesis `htok`,
respectively `hmkC`), the pattern formats successfully at every index
(hypothesis `hfmt`), and no target collides: every straight-line target
(pattern at index start + position, plus the candidate's suffix) is
absent from the initial state and the targets are pairwise distinct (for
extension change: each candidate's `stem + newExtension` target is fresh
and the targets are distinct).  Without the no-collision and
usable-target-directory provisos the counts can differ, as the two
counterexample scenarios show. -/
theorem c3_dry_run_amended
    (cfg : RenameConfig) (w : World) (yes force : Bool)
    (listing : List DirEntry) (g : Nat → String)
    (hscan : w.scan = Except.ok listing)
    (hfmt : cfg.fmt = fun i => some (g i))
    (htok : rTargetOk cfg w = true)
    (hfresh : ∀ k (hk : k < (renameSelection cfg listing).length),
      (⟨rTargetDir cfg, g (cfg.start + k) ++
        pySuffix ((renameSelection cfg listing).get ⟨k, hk⟩).name⟩ : FPath) ∉
        w.fs)
    (hdist : ∀ j k (hj : j < (renameSelection cfg listing).length)
      (hk : k < (renameSelection cfg listing).length), j ≠ k →
      (⟨rTargetDir cfg, g (cfg.start + j) ++
        pySuffix ((renameSelection cfg listing).get ⟨j, hj⟩).name⟩ : FPath) ≠
      ⟨rTargetDir cfg, g (cfg.start + k) ++
        pySuffix ((renameSelection cfg listing).get ⟨k, hk⟩).name⟩)
    (cfgC : ChangeExtConfig) (wC : World) (yesC forceC : Bool)
    (listingC : List DirEntry)
    (hmkC : ceMkdirFailed cfgC wC = false)
    (hscanC : wC.scan = Except.ok listingC)
    (hfreshC : ∀ f ∈ ceSelection cfgC listingC,
      (⟨cfgC.outputDir.getD cfgC.folder,
        pyStem f.name ++ cfgC.newExtension⟩ : FPath) ∉ wC.fs)
    (hnodC : ((ceSelection cfgC listingC).map (fun f =>
      (⟨cfgC.outputDir.getD cfgC.folder,
        pyStem f.name ++ cfgC.newExtension⟩ : FPath))).Nodup) :
    (∀ (c : RenameConfig) (u : World) (y q : Bool) (n : Nat) (t : RState),
      renameFiles c u true y q = Except.ok (n, t) → t.fs = u.fs) ∧
    (∀ (c : ChangeExtConfig) (u : World) (y q : Bool) (n : Nat) (t : CState),
      changeExtensions c u true y q = Except.ok (n, t) → t.fs = u.fs) ∧
    (retOf (renameFiles cfg w true yes force) =
        some (renameSelection cfg listing).length ∧
      retOf (renameFiles cfg w false true force) =
        some (renameSelection cfg listing).length) ∧
    (retOf (changeExtensions cfgC wC true yesC forceC) =
        some (ceSelection cfgC listingC).length ∧
      retOf (changeExtensions cfgC wC false true forceC) =
        some (ceSelection cfgC listingC).length) := by
  refine ⟨fun c u y q n t h => renameFiles_dry_fs c u y q n t h,
    fun c u y q n t h => changeExtensions_dry_fs c u y q n t h, ⟨?_, ?_⟩,
    ⟨?_, ?_⟩⟩
  · -- rename dry run
    by_cases hemp : (renameSelection cfg listing).isEmpty = true
    · rw [renameFiles_empty cfg w true yes force listing hscan hemp]
      rw [List.isEmpty_iff.mp hemp]
      rfl
    · rw [renameFiles_run cfg w true yes force listing hscan
        (by simpa using hemp) (by simp)]
      simp only [retOf, if_pos rfl, Option.some.injEq]
      have hsum := processFold_straightline cfg.folder g cfg.outputDir.isSome
        (rTargetDir cfg) true force (renameSelection cfg listing)
        (rInit w.fs cfg.start (renameSymCount cfg listing)) hfresh hdist
      have hdry := (processFold_dry_inv cfg.folder (fun i => some (g i))
        cfg.outputDir.isSome (rTargetDir cfg) true force
        (renameSelection cfg listing)
        (rInit w.fs cfg.start (renameSymCount cfg listing))).2
      rw [hfmt, htok]
      simp only [rInit, if_true] at hsum hdry ⊢
      omega
  · -- rename live run
    by_cases hemp : (renameSelection cfg listing).isEmpty = true
    · rw [renameFiles_empty cfg w false true force listing hscan hemp]
      rw [List.isEmpty_iff.mp hemp]
      rfl
    · rw [renameFiles_run cfg w false true force listing hscan
        (by simpa using hemp) (by simp)]
      simp only [retOf, Option.some.injEq]
      have hsum := processFold_straightline cfg.folder g cfg.outputDir.isSome
        (rTargetDir cfg) false force (renameSelection cfg listing)
        (rInit w.fs cfg.start (renameSymCount cfg listing)) hfresh hdist
      have hlive := processFold_live_inv cfg.folder (fun i => some (g i))
        cfg.outputDir.isSome (rTargetDir cfg) true force
        (renameSelection cfg listing)
        (rInit w.fs cfg.start (renameSymCount cfg listing))
      rw [hfmt, htok]
      simp only [rInit, Bool.false_eq_true, if_false] at hsum hlive ⊢
      omega
  · -- extension-change dry run
    by_cases hemp : (ceSelection cfgC listingC).isEmpty = true
    · rw [changeExtensions_empty cfgC wC true yesC forceC listingC hmkC hscanC
        hemp]
      rw [List.isEmpty_iff.mp hemp]
      rfl
    · rw [changeExtensions_run cfgC wC true yesC forceC listingC hmkC hscanC
        (by simpa using hemp) (by simp)]
      simp only [retOf, Option.some.injEq]
      have h := ceFold_straightline cfgC.folder cfgC.newExtension
        cfgC.outputDir.isSome (cfgC.outputDir.getD cfgC.folder) true forceC
        (ceSelection cfgC listingC)
        (ceInit wC.fs (ceSymCount cfgC listingC) (ceAlreadyCount cfgC listingC))
        hfreshC hnodC
      simp only [ceInit] at h ⊢
      omega
  · -- extension-change live run
    by_cases hemp : (ceSelection cfgC listingC).isEmpty = true
    · rw [changeExtensions_empty cfgC wC false true forceC listingC hmkC hscanC
        hemp]
      rw [List.isEmpty_iff.mp hemp]
      rfl
    · rw [changeExtensions_run cfgC wC false true forceC listingC hmkC hscanC
        (by simpa using hemp) (by simp)]
      simp only [retOf, Option.some.injEq]
      have h := ceFold_straightline cfgC.folder cfgC.newExtension
        cfgC.outputDir.isSome (cfgC.outputDir.getD cfgC.folder) false forceC
        (ceSelection cfgC listingC)
        (ceInit wC.fs (ceSymCount cfgC listingC) (ceAlreadyCount cfgC listingC))
        hfreshC hnodC
      simp only [ceInit] at h ⊢
      omega

/-- Rename configuration for the C3 witness. -/
def c3cfgW : RenameConfig :=
  { folder := "d", fmt := fun i => some ("f_" ++ toString i) }

/-- Listing for the C3 witness. -/
def c3listW : List DirEntry := [⟨"a.txt", true, false⟩, ⟨"b.txt", true, false⟩]

/-- World for the C3 witness. -/
def c3wW : World :=
  ⟨[⟨"d", "a.txt"⟩, ⟨"d", "b.txt"⟩], Except.ok c3listW, false, false, true⟩

/-- Extension-change configuration for the C3 witness. -/
def c3cfgCW : ChangeExtConfig := { folder := "d", newExtension := ".md" }

/-- C3 amended witness: a collision-free two-file directory, where dry and
live runs of both operations agree on the count 2. -/
theorem c3_dry_run_amended_witness :
    (∀ (c : RenameConfig) (u : World) (y q : Bool) (n : Nat) (t : RState),
      renameFiles c u true y q = Except.ok (n, t) → t.fs = u.fs) ∧
    (∀ (c : ChangeExtConfig) (u : World) (y q : Bool) (n : Nat) (t : CState),
      changeExtensions c u true y q = Except.ok (n, t) → t.fs = u.fs) ∧
    (retOf (renameFiles c3cfgW c3wW true true false) =
        some (renameSelection c3cfgW c3listW).length ∧
      retOf (renameFiles c3cfgW c3wW false true false) =
        some (renameSelection c3cfgW c3listW).length) ∧
    (retOf (changeExtensions c3cfgCW c3wW true true false) =
        some (ceSelection c3cfgCW c3listW).length ∧
      retOf (changeExtensions c3cfgCW c3wW false true false) =
        some (ceSelection c3cfgCW c3listW).length) :=
  c3_dry_run_amended c3cfgW c3wW true false c3listW
    (fun i => "f_" ++ toString i) rfl rfl rfl
    (fun k hk => by
      have hl : (renameSelection c3cfgW c3listW).length = 2 := rfl
      have h2 : k < 2 := by omega
      interval_cases k
      · exact (by decide : (⟨"d", "f_1.txt"⟩ : FPath) ∉ c3wW.fs)
      · exact (by decide : (⟨"d", "f_2.txt"⟩ : FPath) ∉ c3wW.fs))
    (fun j k hj hk hne => by
      have hl : (renameSelection c3cfgW c3listW).length = 2 := rfl
      have hj2 : j < 2 := by omega
      have hk2 : k < 2 := by omega
      interval_cases j <;> interval_cases k
      · exact absurd rfl hne
      · exact (by decide : (⟨"d", "f_1.txt"⟩ : FPath) ≠ ⟨"d", "f_2.txt"⟩)
      · exact (by decide : (⟨"d", "f_2.txt"⟩ : FPath) ≠ ⟨"d", "f_1.txt"⟩)
      · exact absurd rfl hne)
    c3cfgCW c3wW true false c3listW rfl rfl (by decide) (by decide)

end FileMate
